import Mathlib

/-!
Verification of the NexusAI chat client (frontend/src/app/page.tsx).

The development shallowly embeds the two algorithmic components of the page:

* the markdown renderer `formatMessage` (a fixed pipeline of
  regex-replacement stages, lines 451-540 of page.tsx), modelled here as a
  pipeline of scanners over `List Char` that replicate the semantics of
  JavaScript `String.replace` with a global pattern (left-to-right,
  non-overlapping, replacements not rescanned, lazy/greedy quantifiers as in
  the source patterns);

* the streaming chat state machine (`sendMessage`, `retryMessage`,
  `renameChat`, lines 268-438 of page.tsx), modelled as explicit state
  passing over a `ChatState` record together with a step relation for
  reachability arguments.

All definitions are executable; concrete scenarios are settled by `decide`.
-/

set_option maxHeartbeats 4000000
set_option maxRecDepth 10000

namespace NexusAI

abbrev LC := List Char

def str (s : String) : LC := s.data

/-- The whitespace class used by JavaScript `String.prototype.trim` and by
`\s` in the source's regexes (ASCII part plus NBSP and BOM; the claims only
exercise the ASCII part). -/
def isJsWs (c : Char) : Bool :=
  c = ' ' || c = '\t' || c = '\n' || c = '\r' || c = Char.ofNat 11 ||
  c = Char.ofNat 12 || c = Char.ofNat 160 || c = Char.ofNat 65279

/-- JavaScript `s.trim()`. -/
def jsTrim (l : LC) : LC :=
  ((l.dropWhile isJsWs).reverse.dropWhile isJsWs).reverse

/-- JavaScript `\w` (word character). -/
def isWordChar (c : Char) : Bool := c.isAlphanum || c = '_'

/-- JavaScript `\d`. -/
def isDigitChar (c : Char) : Bool := c.isDigit

/-!
## A generic scanner replicating `String.replace` with a global pattern

A `Matcher` inspects a suffix of the text; on success `some (k, repl)` it
consumes the first `k + 1` characters and substitutes `repl`.  `scanF`
walks the text left to right, attempting the matcher at every position,
exactly like the JavaScript regex engine does for `replace(/.../g, ...)`:
after a successful match scanning resumes after the consumed characters
(replacements are never rescanned); after a failure it advances one
character.  Fuel bounds the recursion; `runScan` supplies sufficient fuel.
-/

abbrev Matcher := LC → Option (Nat × LC)

def scanF (M : Matcher) : Nat → LC → LC
  | 0, l => l
  | _ + 1, [] => []
  | fuel + 1, c :: rest =>
    match M (c :: rest) with
    | some (k, repl) => repl ++ scanF M fuel (rest.drop k)
    | none => c :: scanF M fuel rest

def runScan (M : Matcher) (l : LC) : LC := scanF M l.length l

/-- Split at the first occurrence of character `c`. -/
def scanTo (c : Char) : LC → Option (LC × LC)
  | [] => none
  | x :: r =>
    if x = c then some ([], r)
    else (scanTo c r).map (fun p => (x :: p.1, p.2))

/-- Split at the first occurrence of `tgt`, failing if `bad` occurs first
(used for lazy `(.+?)` contents, where `.` does not match a newline). -/
def scanToAvoid (tgt bad : Char) : LC → Option (LC × LC)
  | [] => none
  | x :: r =>
    if x = tgt then some ([], r)
    else if x = bad then none
    else (scanToAvoid tgt bad r).map (fun p => (x :: p.1, p.2))

/-- Split at the first occurrence of `**`, failing on a newline. -/
def scanToPair : LC → Option (LC × LC)
  | [] => none
  | [_] => none
  | x :: y :: r =>
    if x = '*' && y = '*' then some ([], r)
    else if x = '\n' then none
    else (scanToPair (y :: r)).map (fun p => (x :: p.1, p.2))

/-- Split at the first occurrence of the literal sequence `pat`, failing on
a newline before it (used for the lazy `.*?` in the list-grouping regex). -/
def scanToSeq (pat : LC) : LC → Option (LC × LC)
  | [] => none
  | x :: r =>
    if pat.isPrefixOf (x :: r) then some ([], (x :: r).drop pat.length)
    else if x = '\n' then none
    else (scanToSeq pat r).map (fun p => (x :: p.1, p.2))

/-- Split at the first occurrence of a backtick fence ` ``` `
(the lazy `[\s\S]*?` matches anything, including newlines). -/
def scanToTriple : LC → Option (LC × LC)
  | [] => none
  | x :: r =>
    if (str "```").isPrefixOf (x :: r) then some ([], (x :: r).drop 3)
    else (scanToTriple r).map (fun p => (x :: p.1, p.2))

/-- JavaScript `s.split(c)` for a single-character separator. -/
def splitOnChar (sep : Char) : LC → List LC
  | [] => [[]]
  | c :: r =>
    if c = sep then [] :: splitOnChar sep r
    else
      match splitOnChar sep r with
      | [] => [[c]]
      | ℓ :: rest => (c :: ℓ) :: rest

/-- Rejoin what `splitOnChar '\n'` produced (the identity on untouched
lines, mirroring a `/^...$/gm` replacement acting line by line). -/
def joinNl : List LC → LC
  | [] => []
  | [ℓ] => ℓ
  | ℓ :: rest => ℓ ++ '\n' :: joinNl rest

/-- Apply a whole-line rewrite to every line, as a `/^...$/gm` replace does. -/
def linesMap (f : LC → LC) (l : LC) : LC := joinNl ((splitOnChar '\n' l).map f)

/-!
## The individual matchers of the `formatMessage` pipeline
-/

/-- Literal string replacement (e.g. the cleanup passes). -/
def litM (pat repl : LC) : Matcher := fun l =>
  if pat.isPrefixOf l && !pat.isEmpty then some (pat.length - 1, repl) else none

/-- Length of the leading run of `'\n'`. -/
def nlRun : LC → Nat
  | [] => 0
  | c :: r => if c = '\n' then nlRun r + 1 else 0

/-- `/\n{3,}/g → "\n\n"`. -/
def collapseM : Matcher := fun l =>
  let n := nlRun l
  if 3 ≤ n then some (n - 1, str "\n\n") else none

/-- `/\n\n+/g → "</p><p>"`. -/
def paraM : Matcher := fun l =>
  let n := nlRun l
  if 2 ≤ n then some (n - 1, str "</p><p>") else none

/-- `` /`([^`]+)`/g `` → inline code span. -/
def inlineCodeM : Matcher := fun l =>
  match l with
  | [] => none
  | c :: r =>
    if c = '`' then
      match scanTo '`' r with
      | some ([], _) => none
      | some (mid, _) =>
        some (mid.length + 1, str "<code class=\"inline-code\">" ++ mid ++ str "</code>")
      | none => none
    else none

/-- `/\*\*(.+?)\*\*/g → <strong>`. -/
def boldM : Matcher := fun l =>
  match l with
  | a :: b :: c0 :: r =>
    if a = '*' ∧ b = '*' ∧ c0 ≠ '\n' then
      match scanToPair r with
      | some (mid, _) =>
        some ((c0 :: mid).length + 3, str "<strong>" ++ (c0 :: mid) ++ str "</strong>")
      | none => none
    else none
  | _ => none

/-- `/\*(.+?)\*/g → <em>`. -/
def italM : Matcher := fun l =>
  match l with
  | a :: c0 :: r =>
    if a = '*' ∧ c0 ≠ '\n' then
      match scanToAvoid '*' '\n' r with
      | some (mid, _) =>
        some ((c0 :: mid).length + 1, str "<em>" ++ (c0 :: mid) ++ str "</em>")
      | none => none
    else none
  | _ => none

/-- `/\[([^\]]+)\]\(([^)]+)\)/g` → anchor. -/
def linkM : Matcher := fun l =>
  match l with
  | [] => none
  | c :: r =>
    if c = '[' then
      match scanTo ']' r with
      | some ([], _) => none
      | some (txt, r1) =>
        match r1 with
        | [] => none
        | c1 :: r2 =>
          if c1 = '(' then
            match scanTo ')' r2 with
            | some ([], _) => none
            | some (url, _) =>
              some (txt.length + url.length + 3,
                str "<a href=\"" ++ url ++ str "\" target=\"_blank\" rel=\"noopener\">" ++
                txt ++ str "</a>")
            | none => none
          else none
      | none => none
    else none

/-- `/(<\/h[123]>)<br>/g → "$1"` (one alternation pass). -/
def hCloseBrM : Matcher := fun l =>
  if (str "</h1><br>").isPrefixOf l then some (8, str "</h1>")
  else if (str "</h2><br>").isPrefixOf l then some (8, str "</h2>")
  else if (str "</h3><br>").isPrefixOf l then some (8, str "</h3>")
  else none

/-!
### Line rewrites (`/^...$/gm`)
-/

def bqLine (ℓ : LC) : LC :=
  if (str "> ").isPrefixOf ℓ then str "<blockquote>" ++ ℓ.drop 2 ++ str "</blockquote>" else ℓ

def h3Line (ℓ : LC) : LC :=
  if (str "### ").isPrefixOf ℓ then str "<h3>" ++ ℓ.drop 4 ++ str "</h3>" else ℓ

def h2Line (ℓ : LC) : LC :=
  if (str "## ").isPrefixOf ℓ then str "<h2>" ++ ℓ.drop 3 ++ str "</h2>" else ℓ

def h1Line (ℓ : LC) : LC :=
  if (str "# ").isPrefixOf ℓ then str "<h1>" ++ ℓ.drop 2 ++ str "</h1>" else ℓ

def hrLine (ℓ : LC) : LC :=
  if ℓ = str "---" then str "<hr />" else ℓ

def liLine (ℓ : LC) : LC :=
  if (str "- ").isPrefixOf ℓ then str "<li>" ++ ℓ.drop 2 ++ str "</li>" else ℓ

def olLine (ℓ : LC) : LC :=
  let ds := ℓ.takeWhile isDigitChar
  if !ds.isEmpty && (str ". ").isPrefixOf (ℓ.drop ds.length) then
    str "<li class=\"numbered\">" ++ ℓ.drop (ds.length + 2) ++ str "</li>"
  else ℓ

/-!
### The table stage, `/(\|.+\|[\r\n]+)+/g`

One unit of the pattern consumes, from a position holding `'|'`, a line
segment that ends in `'|'` with at least one character in between
(`\|.+\|` with a greedy `.` that excludes `\r`/`\n`, backtracking to the
last pipe, which the following mandatory `[\r\n]+` forces to sit at the end
of the line), followed by the full run of line terminators.
-/

def isNlCr (c : Char) : Bool := c = '\n' || c = '\r'

def tableUnit (l : LC) : Option (LC × LC) :=
  let seg := l.takeWhile (fun c => !isNlCr c)
  if seg.head? == some '|' && seg.getLast? == some '|' && decide (3 ≤ seg.length) then
    let rest := l.dropWhile (fun c => !isNlCr c)
    let nl := rest.takeWhile isNlCr
    if nl.isEmpty then none
    else some (seg ++ nl, rest.dropWhile isNlCr)
  else none

def tableUnits : Nat → LC → Option (LC × LC)
  | 0, _ => none
  | fuel + 1, l =>
    match tableUnit l with
    | none => none
    | some (u, rest) =>
      match tableUnits fuel rest with
      | some (us, rest2) => some (u ++ us, rest2)
      | none => some (u, rest)

/-- The alignment-separator test `line.trim().match(/^\|[-:\s|]+\|$/)`. -/
def isSepChar (c : Char) : Bool := c = '-' || c = ':' || isJsWs c || c = '|'

def isSepLine (ℓ : LC) : Bool :=
  let t := jsTrim ℓ
  decide (3 ≤ t.length) && t.head? == some '|' && t.getLast? == some '|' &&
    ((t.drop 1).dropLast.all isSepChar)

/-- `line.split('|').filter(c => c.trim() !== '')`. -/
def rowCells (ℓ : LC) : List LC :=
  (splitOnChar '|' ℓ).filter (fun c => !(jsTrim c).isEmpty)

def cellHtml (tag c : LC) : LC :=
  str "<" ++ tag ++ str ">" ++ jsTrim c ++ str "</" ++ tag ++ str ">"

def rowHtml (tag : LC) (cells : List LC) : LC :=
  (cells.map (cellHtml tag)).foldr (· ++ ·) []

def buildRows : Bool → List LC → LC
  | _, [] => []
  | isH, ℓ :: rest =>
    if isSepLine ℓ then buildRows isH rest
    else
      let cells := rowCells ℓ
      if cells.isEmpty then buildRows isH rest
      else
        str "<tr>" ++ rowHtml (if isH then str "th" else str "td") cells ++ str "</tr>" ++
        buildRows false rest

/-- The replacement callback of the table stage. -/
def buildTable (m : LC) : LC :=
  let lines := splitOnChar '\n' (jsTrim m)
  if lines.length < 2 then m
  else str "<table class=\"msg-table\">" ++ buildRows true lines ++ str "</table>"

def tableM : Matcher := fun l =>
  match tableUnits l.length l with
  | some (m, _) => some (m.length - 1, buildTable m)
  | none => none

/-!
### The list-grouping stage, `/(<li>.*?<\/li>(<br>)?)+/g`
-/

def groupUnit (l : LC) : Option (LC × LC) :=
  if (str "<li>").isPrefixOf l then
    match scanToSeq (str "</li>") (l.drop 4) with
    | some (mid, rest) =>
      let u := str "<li>" ++ mid ++ str "</li>"
      if (str "<br>").isPrefixOf rest then some (u ++ str "<br>", rest.drop 4)
      else some (u, rest)
    | none => none
  else none

def groupUnits : Nat → LC → Option (LC × LC)
  | 0, _ => none
  | fuel + 1, l =>
    match groupUnit l with
    | none => none
    | some (u, rest) =>
      match groupUnits fuel rest with
      | some (us, rest2) => some (u ++ us, rest2)
      | none => some (u, rest)

/-- `match.replace(/<br>/g, '')` inside the grouping callback. -/
def removeBr (l : LC) : LC := runScan (litM (str "<br>") []) l

def groupM : Matcher := fun l =>
  match groupUnits l.length l with
  | some (m, _) => some (m.length - 1, str "<ul>" ++ removeBr m ++ str "</ul>")
  | none => none

/-!
### The fence stage, `/```(\w*)\n?([\s\S]*?)```/g`, and the stored blocks
-/

/-- `code.replace(/</g, '&lt;').replace(/>/g, '&gt;')`. -/
def escapeHtml (code : LC) : LC :=
  runScan (litM (str ">") (str "&gt;")) (runScan (litM (str "<") (str "&lt;")) code)

def isUnreserved (c : Char) : Bool :=
  c.isAlphanum || c = '-' || c = '_' || c = '.' || c = '!' || c = '~' ||
  c = '*' || c = Char.ofNat 39 || c = '(' || c = ')'

def hexDigit (n : Nat) : Char :=
  if n < 10 then Char.ofNat (48 + n) else Char.ofNat (55 + n)

def utf8Bytes (n : Nat) : List Nat :=
  if n < 128 then [n]
  else if n < 2048 then [192 + n / 64, 128 + n % 64]
  else if n < 65536 then [224 + n / 4096, 128 + (n / 64) % 64, 128 + n % 64]
  else [240 + n / 262144, 128 + (n / 4096) % 64, 128 + (n / 64) % 64, 128 + n % 64]

def pctEncodeChar (c : Char) : LC :=
  if isUnreserved c then [c]
  else ((utf8Bytes c.toNat).map (fun b => ['%', hexDigit (b / 16), hexDigit (b % 16)])).foldr (· ++ ·) []

def encodeURIComponent (l : LC) : LC := (l.map pctEncodeChar).foldr (· ++ ·) []

/-- The HTML fragment pushed onto `codeBlocks` for one fence (the template
literal of lines 456-462, whitespace exactly as in the source). -/
def codeBlockHtml (lang code : LC) : LC :=
  str "<div class=\"code-block-wrapper\">\n                <div class=\"code-header\">\n                    <span class=\"code-lang\">" ++
  (if lang.isEmpty then str "code" else lang) ++
  str "</span>\n                    <button class=\"code-copy-btn\" onclick=\"navigator.clipboard.writeText(decodeURIComponent(\x27" ++
  encodeURIComponent (jsTrim code) ++
  str "\x27));this.textContent=\x27Copied!\x27\">Copy</button>\n                </div>\n                <pre class=\"code-block\"><code>" ++
  escapeHtml code ++
  str "</code></pre>\n            </div>"

def codeToken (i : Nat) : LC := str "__CODE_BLOCK_" ++ Nat.toDigits 10 i ++ str "__"

/-- The fence extraction scan.  At each position it attempts the fence
pattern: a ` ``` ` opener, a greedy `\w*` language tag, an optional
newline, and a lazy body up to the next ` ``` `; on failure the engine
advances one character, on success it emits the placeholder token, stores
the rendered block, and resumes after the closer. -/
def fenceF : Nat → LC → Nat → List LC → LC × List LC
  | 0, l, _, bs => (l, bs)
  | _ + 1, [], _, bs => ([], bs)
  | fuel + 1, c :: rest, i, bs =>
    if (str "```").isPrefixOf (c :: rest) then
      let afterOpen := (c :: rest).drop 3
      let lang := afterOpen.takeWhile isWordChar
      let afterLang := afterOpen.drop lang.length
      let afterNl := if afterLang.head? == some '\n' then afterLang.drop 1 else afterLang
      match scanToTriple afterNl with
      | some (code, rest2) =>
        let r := fenceF fuel rest2 (i + 1) (bs ++ [codeBlockHtml lang code])
        (codeToken i ++ r.1, r.2)
      | none =>
        let r := fenceF fuel rest i bs
        (c :: r.1, r.2)
    else
      let r := fenceF fuel rest i bs
      (c :: r.1, r.2)

def fenceStage (l : LC) : LC × List LC := fenceF l.length l 0 []

/-!
### Restoring the blocks: `processed.replace('__CODE_BLOCK_i__', block)`

A `String.replace` with a *string* pattern replaces only the first
occurrence, and still interprets `$$`, `$&`, `` $` `` and `$'` in the
replacement string (a string pattern has no capture groups, so `$n` stays
literal). -/

def jsSubst (pre pat post : LC) : LC → LC
  | [] => []
  | '$' :: '$' :: r => '$' :: jsSubst pre pat post r
  | '$' :: '&' :: r => pat ++ jsSubst pre pat post r
  | '$' :: c :: r =>
    if c = Char.ofNat 96 then pre ++ jsSubst pre pat post r
    else if c = Char.ofNat 39 then post ++ jsSubst pre pat post r
    else '$' :: jsSubst pre pat post (c :: r)
  | c :: r => c :: jsSubst pre pat post r

/-- Split around the first occurrence of the sequence `pat`. -/
def splitFirstSeq (pat : LC) : LC → Option (LC × LC)
  | [] => none
  | c :: r =>
    if pat.isPrefixOf (c :: r) then some ([], (c :: r).drop pat.length)
    else (splitFirstSeq pat r).map (fun p => (c :: p.1, p.2))

def replFirst (pat repl l : LC) : LC :=
  match splitFirstSeq pat l with
  | some (pre, post) => pre ++ jsSubst pre pat post repl ++ post
  | none => l

def restoreF : Nat → List LC → LC → LC
  | _, [], l => l
  | i, b :: bs, l => restoreF (i + 1) bs (replFirst (codeToken i) b l)

def restoreBlocks (bs : List LC) (l : LC) : LC := restoreF 0 bs l

/-- Step 6 of the pipeline: wrap in `<p>` unless the text already starts
with a block-level tag. -/
def wrapP (l : LC) : LC :=
  if (str "<h").isPrefixOf l || (str "<table").isPrefixOf l ||
     (str "<ul").isPrefixOf l || (str "<div").isPrefixOf l then l
  else str "<p>" ++ l ++ str "</p>"

/-- The full renderer, `formatMessage` (page.tsx lines 451-540), with the
stages in source order. -/
def formatMessage (content : LC) : LC :=
  let fp := fenceStage content
  let t1 := runScan collapseM fp.1
  let t2 := runScan tableM t1
  let t3 := runScan inlineCodeM t2
  let t4 := linesMap bqLine t3
  let t5 := linesMap h3Line t4
  let t6 := linesMap h2Line t5
  let t7 := linesMap h1Line t6
  let t8 := runScan boldM t7
  let t9 := runScan italM t8
  let t10 := linesMap hrLine t9
  let t11 := linesMap liLine t10
  let t12 := linesMap olLine t11
  let t13 := runScan linkM t12
  let t14 := runScan paraM t13
  let t15 := runScan hCloseBrM t14
  let t16 := runScan (litM (str "<hr /><br>") (str "<hr />")) t15
  let t17 := runScan (litM (str "</table><br>") (str "</table>")) t16
  let t18 := runScan (litM (str "</ul><br>") (str "</ul>")) t17
  let t19 := runScan (litM (str "</blockquote><br>") (str "</blockquote>")) t18
  let t20 := runScan (litM (str "\n") (str "<br>")) t19
  let t21 := wrapP t20
  let t22 := runScan (litM (str "<p></p>") []) t21
  let t23 := runScan (litM (str "<p><br></p>") []) t22
  let t24 := runScan (litM (str "<br><br>") (str "<br>")) t23
  let t25 := runScan (litM (str "<p><br>") (str "<p>")) t24
  let t26 := runScan (litM (str "<br></p>") (str "</p>")) t25
  let t27 := runScan groupM t26
  restoreBlocks fp.2 t27

/-!
## The streaming chat data model

`Message`, the stream frames, and the state touched by `sendMessage`
(page.tsx lines 322-438), `retryMessage` (313-320) and `renameChat`
(268-276).  Runtime-generated identifiers and timestamps are passed in as
parameters.  The image-attachment payload and the chat-list bookkeeping
that `sendMessage` performs on the side (creating a chat, setting its
title) carry no message state and are not modelled; `toolStatus` is kept
because the `finally` block clears it on every exit path.
-/

inductive Role
  | user
  | assistant
deriving DecidableEq

structure Message where
  id : LC
  role : Role
  content : LC
  timestamp : LC
  isStreaming : Bool
deriving DecidableEq

/-- One decoded `data: ` frame.  `chunk` is optional; the source guards it
with JavaScript truthiness (`if (data.chunk)`), so an empty string behaves
like an absent one. -/
structure StreamFrame where
  chunk : Option LC
  search_used : Bool
  done : Bool
deriving DecidableEq

structure ChatState where
  msgs : List Message
  isLoading : Bool
  toolStatus : Option LC
deriving DecidableEq

/-- `updated[updated.length - 1] = { ...updated[updated.length - 1], ... }`. -/
def updateLast (f : Message → Message) : List Message → List Message
  | [] => []
  | [m] => [f m]
  | m :: rest => m :: updateLast f rest

/-- Processing of one frame by the read loop (page.tsx lines 392-415);
`search_used` only touches `toolStatus`, handled in the step relation. -/
def applyFrame (msgs : List Message) (fr : StreamFrame) : List Message :=
  let m1 :=
    match fr.chunk with
    | some s =>
      if s.isEmpty then msgs
      else updateLast (fun m => { m with content := m.content ++ s }) msgs
    | none => msgs
  if fr.done then updateLast (fun m => { m with isStreaming := false }) m1 else m1

def errorText : LC := str "❌ Sorry, I encountered an error. Please try again."

/-- The `catch` branch (page.tsx lines 423-433). -/
def applyError (msgs : List Message) : List Message :=
  updateLast (fun m => { m with content := errorText, isStreaming := false }) msgs

def userMsg (mid text ts : LC) : Message :=
  { id := mid, role := Role.user, content := text, timestamp := ts, isStreaming := false }

def assistantPlaceholder (mid ts : LC) : Message :=
  { id := mid, role := Role.assistant, content := [], timestamp := ts, isStreaming := true }

/-- The network outcome seen by one `sendMessage` call: either the decoded
frames of a complete response stream, or a transport failure (rejection or
non-ok status) thrown after some prefix of the frames was processed. -/
inductive FetchOutcome
  | ok (frames : List StreamFrame)
  | fail (framesBefore : List StreamFrame)

/-- `sendMessage` (page.tsx lines 322-438) as a state transformer.  The
function models every exit path of the source: the empty-input and
concurrent-submission early returns, the streaming success path, and the
`catch`/`finally` recovery — the caller always receives a state, never an
exception, mirroring that the source swallows the error after logging. -/
def sendMessage (st : ChatState) (overrideInput : Option LC) (input : LC)
    (imageFile : Bool) (outcome : FetchOutcome) (uid aid uts ats : LC) : ChatState :=
  let text := match overrideInput with
    | some o => if o.isEmpty then jsTrim input else o
    | none => jsTrim input
  if text.isEmpty && !imageFile then st
  else if st.isLoading then st
  else
    let msgs1 := st.msgs ++ [userMsg uid text uts, assistantPlaceholder aid ats]
    match outcome with
    | .ok frames =>
      { msgs := frames.foldl applyFrame msgs1, isLoading := false, toolStatus := none }
    | .fail frames =>
      { msgs := applyError (frames.foldl applyFrame msgs1), isLoading := false, toolStatus := none }

/-- `retryMessage` (page.tsx lines 313-320): the truncation step and the
text it resubmits (`sendMessage(userMessage.content)` runs afterwards).
`messages[messageIndex - 1]` is `undefined` for `messageIndex = 0`
(negative JavaScript index), so nothing happens then. -/
def retryMessage (msgs : List Message) (messageIndex : Nat) : List Message × Option LC :=
  if messageIndex = 0 then (msgs, none)
  else
    match msgs.get? (messageIndex - 1) with
    | some um =>
      if um.role = Role.user then (msgs.take (messageIndex - 1), some um.content)
      else (msgs, none)
    | none => (msgs, none)

structure Chat where
  id : LC
  title : LC
  messages : List Message
  starred : Bool
  created : LC
  lastMessage : Option LC
  selected : Option Bool
deriving DecidableEq

/-- `renameChat` (page.tsx lines 268-276), restricted to its effect on the
chat list (it also resets the rename-modal fields, which are not part of
any Chat). -/
def renameChat (chats : List Chat) (chatId newTitle : LC) : List Chat :=
  if !(jsTrim newTitle).isEmpty then
    chats.map (fun chat => if chat.id = chatId then { chat with title := jsTrim newTitle } else chat)
  else chats

/-!
## The event-level transition system of the chat client

`Step` decomposes `sendMessage` into its externally visible events - the
synchronous prefix that appends the user message and the streaming
placeholder, the per-frame mutations executed by the read loop, and the
end/error/`finally` transitions - together with the truncation performed by
`retryMessage`.  This is the reachability notion quantified over by the
state-invariant claim. -/

inductive Step : ChatState → ChatState → Prop
  | send (st : ChatState) (text uid aid uts ats : LC) :
      text ≠ [] → st.isLoading = false →
      Step st ⟨st.msgs ++ [userMsg uid text uts, assistantPlaceholder aid ats], true, st.toolStatus⟩
  | frame (st : ChatState) (fr : StreamFrame) :
      st.isLoading = true →
      Step st ⟨applyFrame st.msgs fr, true,
        if fr.search_used then some (str "Searching the web...") else st.toolStatus⟩
  | streamEnd (st : ChatState) :
      st.isLoading = true → Step st ⟨st.msgs, false, none⟩
  | streamErr (st : ChatState) :
      st.isLoading = true → Step st ⟨applyError st.msgs, false, none⟩
  | retry (st : ChatState) (idx : Nat) (um : Message) :
      1 ≤ idx → st.msgs.get? (idx - 1) = some um → um.role = Role.user →
      Step st ⟨st.msgs.take (idx - 1), st.isLoading, st.toolStatus⟩

def initState : ChatState := ⟨[], false, none⟩

def Reach (s : ChatState) : Prop := Relation.ReflTransGen Step initState s

/-- `Step` restricted so that a stream only ends naturally after its
closing `done` frame (or an error) has already cleared the streaming flag
of the in-progress message — the discipline the backend contract intends. -/
inductive GStep : ChatState → ChatState → Prop
  | send (st : ChatState) (text uid aid uts ats : LC) :
      text ≠ [] → st.isLoading = false →
      GStep st ⟨st.msgs ++ [userMsg uid text uts, assistantPlaceholder aid ats], true, st.toolStatus⟩
  | frame (st : ChatState) (fr : StreamFrame) :
      st.isLoading = true →
      GStep st ⟨applyFrame st.msgs fr, true,
        if fr.search_used then some (str "Searching the web...") else st.toolStatus⟩
  | streamEnd (st : ChatState) :
      st.isLoading = true →
      (st.msgs.getLast?.all fun m => !m.isStreaming) = true →
      GStep st ⟨st.msgs, false, none⟩
  | streamErr (st : ChatState) :
      st.isLoading = true → GStep st ⟨applyError st.msgs, false, none⟩
  | retry (st : ChatState) (idx : Nat) (um : Message) :
      1 ≤ idx → st.msgs.get? (idx - 1) = some um → um.role = Role.user →
      GStep st ⟨st.msgs.take (idx - 1), st.isLoading, st.toolStatus⟩

def GReach (s : ChatState) : Prop := Relation.ReflTransGen GStep initState s

/-- "At most one message is streaming and it is the last one": every
message except possibly the final one has a cleared streaming flag. -/
def lastOnlyStreaming (l : List Message) : Bool :=
  l.dropLast.all fun m => !m.isStreaming

/-- The effect of one frame on the final message alone (the read loop only
ever rewrites the last list entry, so `applyFrame` factors through this). -/
def applyFrameMsg (m : Message) (fr : StreamFrame) : Message :=
  let m1 :=
    match fr.chunk with
    | some s => if s.isEmpty then m else { m with content := m.content ++ s }
    | none => m
  if fr.done then { m1 with isStreaming := false } else m1

/-- The frames of the reference streaming scenario:
`{"chunk":"He"}`, `{"chunk":"llo"}`, `{"done":true}`. -/
def c1Frames : List StreamFrame :=
  [{ chunk := some (str "He"), search_used := false, done := false },
   { chunk := some (str "llo"), search_used := false, done := false },
   { chunk := none, search_used := false, done := true }]

/-- State after submitting "hi" against a stream that delivers one chunk
and then ends without ever sending a `done` frame. -/
def c4state : ChatState :=
  sendMessage initState none (str "hi") false
    (.ok [{ chunk := some (str "He"), search_used := false, done := false }])
    (str "u1") (str "a1") (str "09:00") (str "09:00")

/-- After `send "hi"`. -/
def c7s1 : ChatState :=
  ⟨[userMsg (str "u1") (str "hi") (str "09:00"),
    assistantPlaceholder (str "a1") (str "09:00")], true, none⟩

/-- After the frame `{"chunk":"He"}`. -/
def c7s2 : ChatState :=
  ⟨[userMsg (str "u1") (str "hi") (str "09:00"),
    { id := str "a1", role := Role.assistant, content := str "He",
      timestamp := str "09:00", isStreaming := true }], true, none⟩

/-- After the read loop ends with no `done` frame seen. -/
def c7s3 : ChatState := ⟨c7s2.msgs, false, none⟩

/-- After a second `send "yo"`: two messages now carry
`isStreaming = true`, and the first of them is not last. -/
def c7state : ChatState :=
  ⟨c7s2.msgs ++ [userMsg (str "u2") (str "yo") (str "09:01"),
    assistantPlaceholder (str "a2") (str "09:01")], true, none⟩

/-- A properly terminated variant: the frame `{"done":true}` arrives. -/
def c7w2 : ChatState :=
  ⟨[userMsg (str "u1") (str "hi") (str "09:00"),
    { id := str "a1", role := Role.assistant, content := [],
      timestamp := str "09:00", isStreaming := false }], true, none⟩

def c7w3 : ChatState := ⟨c7w2.msgs, false, none⟩

def demoChat (i t : LC) : Chat :=
  { id := i, title := t, messages := [], starred := false,
    created := str "2026-01-01", lastMessage := none, selected := none }

def demoChats : List Chat :=
  [demoChat (str "c1") (str "Old"), demoChat (str "c2") (str "Other")]

/-- Plain paragraph text: letters and spaces, touched by no stage of the
renderer except the final paragraph wrapping. -/
def plainChar (c : Char) : Prop := c.isAlpha = true ∨ c = ' '

instance (c : Char) : Decidable (plainChar c) := by
  unfold plainChar
  infer_instance

end NexusAI

namespace NexusAI

/-!
# Theorems

## Structure of the read-loop mutations
-/

theorem updateLast_append (f : Message → Message) :
    ∀ (l : List Message) (m : Message), updateLast f (l ++ [m]) = l ++ [f m]
  | [], _ => rfl
  | [_], _ => rfl
  | a :: b :: l, m => by
    have ih := updateLast_append f (b :: l) m
    simp only [List.cons_append] at ih ⊢
    simp only [updateLast]
    rw [ih]

theorem applyFrame_append (l : List Message) (m : Message) (fr : StreamFrame) :
    applyFrame (l ++ [m]) fr = l ++ [applyFrameMsg m fr] := by
  rcases fr with ⟨ch, su, dn⟩
  cases ch with
  | none => cases dn <;> simp [applyFrame, applyFrameMsg, updateLast_append]
  | some s =>
    by_cases hs : s.isEmpty <;> cases dn <;>
      simp [applyFrame, applyFrameMsg, hs, updateLast_append]

theorem foldl_applyFrame_append (frames : List StreamFrame) :
    ∀ (l : List Message) (m : Message),
      frames.foldl applyFrame (l ++ [m]) = l ++ [frames.foldl applyFrameMsg m] := by
  induction frames with
  | nil => intro l m; rfl
  | cons f fs ih =>
    intro l m
    simp only [List.foldl_cons, applyFrame_append]
    exact ih l _

theorem applyError_append (l : List Message) (m : Message) :
    applyError (l ++ [m]) = l ++ [{ m with content := errorText, isStreaming := false }] :=
  updateLast_append _ l m

theorem applyFrameMsg_isStreaming (m : Message) (fr : StreamFrame) (h : fr.done = false) :
    (applyFrameMsg m fr).isStreaming = m.isStreaming := by
  rcases fr with ⟨ch, su, dn⟩
  cases dn
  · cases ch
    · simp [applyFrameMsg]
    · simp [applyFrameMsg]; split <;> rfl
  · simp at h

theorem foldl_applyFrameMsg_isStreaming :
    ∀ (frames : List StreamFrame) (m : Message), (∀ fr ∈ frames, fr.done = false) →
      (frames.foldl applyFrameMsg m).isStreaming = m.isStreaming := by
  intro frames
  induction frames with
  | nil => intro m _; rfl
  | cons f fs ih =>
    intro m h
    rw [List.foldl_cons, ih _ (fun fr hfr => h fr (List.mem_cons_of_mem f hfr)),
      applyFrameMsg_isStreaming m f (h f (List.mem_cons_self f fs))]

theorem applyFrameMsg_fields (m : Message) (fr : StreamFrame) :
    (applyFrameMsg m fr).id = m.id ∧ (applyFrameMsg m fr).role = m.role ∧
      (applyFrameMsg m fr).timestamp = m.timestamp := by
  rcases fr with ⟨ch, su, dn⟩
  cases ch <;> cases dn <;> simp [applyFrameMsg] <;> split <;> simp

theorem foldl_applyFrameMsg_fields (frames : List StreamFrame) :
    ∀ m : Message, (frames.foldl applyFrameMsg m).id = m.id ∧
      (frames.foldl applyFrameMsg m).role = m.role ∧
      (frames.foldl applyFrameMsg m).timestamp = m.timestamp := by
  induction frames with
  | nil => intro m; exact ⟨rfl, rfl, rfl⟩
  | cons f fs ih =>
    intro m
    have h1 := applyFrameMsg_fields m f
    have h2 := ih (applyFrameMsg m f)
    rw [List.foldl_cons]
    exact ⟨h2.1.trans h1.1, h2.2.1.trans h1.2.1, h2.2.2.trans h1.2.2⟩

/-- The success path of `sendMessage` with a bare prompt. -/
theorem sendMessage_ok_eq (st : ChatState) (input : LC) (imageFile : Bool)
    (frames : List StreamFrame) (uid aid uts ats : LC)
    (h : st.isLoading = false) (ht : (jsTrim input).isEmpty = false) :
    sendMessage st none input imageFile (.ok frames) uid aid uts ats =
      { msgs := st.msgs ++ [userMsg uid (jsTrim input) uts,
          frames.foldl applyFrameMsg (assistantPlaceholder aid ats)],
        isLoading := false, toolStatus := none } := by
  unfold sendMessage
  simp only [ht, h, Bool.false_and, Bool.false_eq_true, if_false]
  have : st.msgs ++ [userMsg uid (jsTrim input) uts, assistantPlaceholder aid ats] =
      (st.msgs ++ [userMsg uid (jsTrim input) uts]) ++ [assistantPlaceholder aid ats] := by
    simp
  rw [this, foldl_applyFrame_append]
  simp

/-- The success path of `sendMessage` when retrying with an override text. -/
theorem sendMessage_override_ok_eq (st : ChatState) (text input : LC) (imageFile : Bool)
    (frames : List StreamFrame) (uid aid uts ats : LC)
    (h : st.isLoading = false) (ht : text.isEmpty = false) :
    sendMessage st (some text) input imageFile (.ok frames) uid aid uts ats =
      { msgs := st.msgs ++ [userMsg uid text uts,
          frames.foldl applyFrameMsg (assistantPlaceholder aid ats)],
        isLoading := false, toolStatus := none } := by
  unfold sendMessage
  simp only [ht, h, Bool.false_and, Bool.false_eq_true, if_false]
  have : st.msgs ++ [userMsg uid text uts, assistantPlaceholder aid ats] =
      (st.msgs ++ [userMsg uid text uts]) ++ [assistantPlaceholder aid ats] := by
    simp
  rw [this, foldl_applyFrame_append]
  simp

/-- The failure path of `sendMessage`. -/
theorem sendMessage_fail_eq (st : ChatState) (input : LC) (imageFile : Bool)
    (frames : List StreamFrame) (uid aid uts ats : LC)
    (h : st.isLoading = false) (ht : (jsTrim input).isEmpty = false) :
    sendMessage st none input imageFile (.fail frames) uid aid uts ats =
      { msgs := st.msgs ++ [userMsg uid (jsTrim input) uts,
          { frames.foldl applyFrameMsg (assistantPlaceholder aid ats) with
            content := errorText, isStreaming := false }],
        isLoading := false, toolStatus := none } := by
  unfold sendMessage
  simp only [ht, h, Bool.false_and, Bool.false_eq_true, if_false]
  have hsplit : st.msgs ++ [userMsg uid (jsTrim input) uts, assistantPlaceholder aid ats] =
      (st.msgs ++ [userMsg uid (jsTrim input) uts]) ++ [assistantPlaceholder aid ats] := by
    simp
  rw [hsplit, foldl_applyFrame_append, applyError_append]
  simp

/-!
## Claims about the stream consumer
-/

/-- **C1** — Stream Consumer scenario: submitting the prompt `"hi"` against
a response whose `data: ` lines decode, in order, to `{"chunk":"He"}`,
`{"chunk":"llo"}`, `{"done":true}` appends each chunk verbatim in arrival
order to the last (streaming) assistant message, so its final content is
exactly `"Hello"` and its `isStreaming` flag is `false` after the `done`
frame (and the loading flag is cleared). -/
theorem c1_stream_scenario (st : ChatState) (uid aid uts ats : LC)
    (h : st.isLoading = false) :
    (sendMessage st none (str "hi") false (.ok c1Frames) uid aid uts ats).msgs =
      st.msgs ++ [userMsg uid (str "hi") uts,
        { id := aid, role := Role.assistant, content := str "Hello",
          timestamp := ats, isStreaming := false }] ∧
    (sendMessage st none (str "hi") false (.ok c1Frames) uid aid uts ats).isLoading = false := by
  rw [sendMessage_ok_eq st (str "hi") false c1Frames uid aid uts ats h (by decide)]
  exact ⟨rfl, rfl⟩

theorem c1_stream_scenario_witness :
    (sendMessage initState none (str "hi") false (.ok c1Frames)
        (str "u1") (str "a1") (str "09:00") (str "09:00")).msgs =
      initState.msgs ++ [userMsg (str "u1") (str "hi") (str "09:00"),
        { id := str "a1", role := Role.assistant, content := str "Hello",
          timestamp := str "09:00", isStreaming := false }] ∧
    (sendMessage initState none (str "hi") false (.ok c1Frames)
        (str "u1") (str "a1") (str "09:00") (str "09:00")).isLoading = false :=
  c1_stream_scenario initState (str "u1") (str "a1") (str "09:00") (str "09:00") rfl

/-- **C4**, counterexample — the claim asserts that after a stream ends
with no `done` frame ever delivered, the in-progress assistant message
"nonetheless stops streaming: its `isStreaming` flag is false".  In the
source the read-loop exit performs no such defensive completion (only the
`finally` block runs, clearing the loading flag), so after the concrete
no-`done` stream of `c4state` the flag is still `true`. -/
theorem c4_counterexample :
    c4state.msgs.getLast?.map Message.isStreaming = some true ∧
    c4state.isLoading = false := by decide

/-- **C4**, amended — for every stream in which no frame has a truthy
`done` field, once the read loop reports end-of-stream the in-progress
assistant message is *still streaming* (`isStreaming = true`); natural
end-of-stream clears only the global loading flag. -/
theorem c4_no_done_keeps_streaming (st : ChatState) (input : LC)
    (frames : List StreamFrame) (uid aid uts ats : LC)
    (h : st.isLoading = false) (ht : (jsTrim input).isEmpty = false)
    (hf : ∀ fr ∈ frames, fr.done = false) :
    (sendMessage st none input false (.ok frames) uid aid uts ats).msgs.getLast?.map
        Message.isStreaming = some true ∧
    (sendMessage st none input false (.ok frames) uid aid uts ats).isLoading = false := by
  rw [sendMessage_ok_eq st input false frames uid aid uts ats h ht]
  refine ⟨?_, rfl⟩
  have hsplit : st.msgs ++ [userMsg uid (jsTrim input) uts,
      frames.foldl applyFrameMsg (assistantPlaceholder aid ats)] =
      (st.msgs ++ [userMsg uid (jsTrim input) uts]) ++
        [frames.foldl applyFrameMsg (assistantPlaceholder aid ats)] := by simp
  simp only [hsplit, List.getLast?_concat]
  show some ((frames.foldl applyFrameMsg (assistantPlaceholder aid ats)).isStreaming) = some true
  rw [foldl_applyFrameMsg_isStreaming frames _ hf]
  rfl

theorem c4_no_done_keeps_streaming_witness :
    (sendMessage initState none (str "hi") false
        (.ok [{ chunk := some (str "He"), search_used := false, done := false }])
        (str "u1") (str "a1") (str "09:00") (str "09:00")).msgs.getLast?.map
        Message.isStreaming = some true ∧
    (sendMessage initState none (str "hi") false
        (.ok [{ chunk := some (str "He"), search_used := false, done := false }])
        (str "u1") (str "a1") (str "09:00") (str "09:00")).isLoading = false :=
  c4_no_done_keeps_streaming initState (str "hi")
    [{ chunk := some (str "He"), search_used := false, done := false }]
    (str "u1") (str "a1") (str "09:00") (str "09:00") rfl (by decide)
    (by intro fr hfr; simp at hfr; rw [hfr])

/-- **C5** — when the request fails with a transport/network error or a
non-success status (the `catch` path, reached after any prefix of frames),
the in-progress assistant message's content is replaced by the fixed
apology string, its streaming flag is cleared, and the global loading flag
is cleared.  The error is not re-raised: `sendMessage` is modelled as a
total state transformer precisely because the source swallows the
exception after `console.error`. -/
theorem c5_transport_failure (st : ChatState) (input : LC) (imageFile : Bool)
    (frames : List StreamFrame) (uid aid uts ats : LC)
    (h : st.isLoading = false) (ht : (jsTrim input).isEmpty = false) :
    (sendMessage st none input imageFile (.fail frames) uid aid uts ats).msgs.getLast? =
      some { id := aid, role := Role.assistant, content := errorText,
             timestamp := ats, isStreaming := false } ∧
    (sendMessage st none input imageFile (.fail frames) uid aid uts ats).isLoading = false := by
  rw [sendMessage_fail_eq st input imageFile frames uid aid uts ats h ht]
  refine ⟨?_, rfl⟩
  have hfields := foldl_applyFrameMsg_fields frames (assistantPlaceholder aid ats)
  have hsplit : st.msgs ++ [userMsg uid (jsTrim input) uts,
      { frames.foldl applyFrameMsg (assistantPlaceholder aid ats) with
        content := errorText, isStreaming := false }] =
      (st.msgs ++ [userMsg uid (jsTrim input) uts]) ++
        [{ frames.foldl applyFrameMsg (assistantPlaceholder aid ats) with
          content := errorText, isStreaming := false }] := by simp
  simp only [hsplit, List.getLast?_concat, Option.some.injEq]
  rcases hmk : frames.foldl applyFrameMsg (assistantPlaceholder aid ats) with ⟨i, r, c, t, s⟩
  rw [hmk] at hfields
  simp [assistantPlaceholder] at hfields
  simp [hfields.1, hfields.2.1, hfields.2.2]

theorem c5_transport_failure_witness :
    (sendMessage initState none (str "boom") false (.fail [])
        (str "u1") (str "a1") (str "09:00") (str "09:00")).msgs.getLast? =
      some { id := str "a1", role := Role.assistant, content := errorText,
             timestamp := str "09:00", isStreaming := false } ∧
    (sendMessage initState none (str "boom") false (.fail [])
        (str "u1") (str "a1") (str "09:00") (str "09:00")).isLoading = false :=
  c5_transport_failure initState (str "boom") false []
    (str "u1") (str "a1") (str "09:00") (str "09:00") rfl (by decide)

/-- **C8** — for a message list whose entry at `idx - 1` is a user message
with text `A`, `retryMessage` at index `idx` removes that user message and
everything after it, and re-submits `A`; the subsequent `sendMessage`
(with `A` as the override text) appends a fresh user message carrying `A`
and a new assistant placeholder that then accumulates the new reply — a
replay, not a resume. -/
theorem c8_retry_replays (msgs : List Message) (idx : Nat) (um : Message)
    (frames : List StreamFrame) (input : LC) (imageFile : Bool)
    (uid aid uts ats : LC) (ts : Option LC)
    (h1 : 1 ≤ idx) (h2 : msgs.get? (idx - 1) = some um)
    (h3 : um.role = Role.user) (h4 : um.content ≠ []) :
    retryMessage msgs idx = (msgs.take (idx - 1), some um.content) ∧
    (sendMessage ⟨msgs.take (idx - 1), false, ts⟩ (some um.content) input imageFile
        (.ok frames) uid aid uts ats).msgs =
      msgs.take (idx - 1) ++ [userMsg uid um.content uts,
        frames.foldl applyFrameMsg (assistantPlaceholder aid ats)] := by
  have hne : um.content.isEmpty = false := by
    cases hc : um.content
    · exact absurd hc h4
    · rfl
  constructor
  · unfold retryMessage
    rw [if_neg (by omega), h2]
    simp [h3]
  · rw [sendMessage_override_ok_eq _ um.content input imageFile frames uid aid uts ats rfl hne]

theorem c8_retry_replays_witness :
    retryMessage [userMsg (str "u1") (str "A") (str "09:00"),
        { id := str "a1", role := Role.assistant, content := str "B",
          timestamp := str "09:00", isStreaming := false }] 1 =
      ([], some (str "A")) ∧
    (sendMessage ⟨[], false, none⟩ (some (str "A")) [] false (.ok []) (str "u2")
        (str "a2") (str "09:05") (str "09:05")).msgs =
      [] ++ [userMsg (str "u2") (str "A") (str "09:05"),
        assistantPlaceholder (str "a2") (str "09:05")] :=
  c8_retry_replays [userMsg (str "u1") (str "A") (str "09:00"),
      { id := str "a1", role := Role.assistant, content := str "B",
        timestamp := str "09:00", isStreaming := false }] 1
    (userMsg (str "u1") (str "A") (str "09:00")) [] [] false
    (str "u2") (str "a2") (str "09:05") (str "09:05") none
    (by decide) rfl rfl (by decide)

/-- **C10** — `renameChat` with a blank (empty or whitespace-only) title
leaves every chat entirely unchanged; with a non-blank title it changes
exactly the title of the chats matching the target id, setting it to the
whitespace-trimmed title, and leaves every other chat and every other field
of the targeted chat unchanged. -/
theorem c10_renameChat_frame (chats : List Chat) (cid t : LC) :
    ((jsTrim t).isEmpty = true → renameChat chats cid t = chats) ∧
    ((jsTrim t).isEmpty = false →
      (renameChat chats cid t).length = chats.length ∧
      ∀ i (hi : i < chats.length),
        (chats[i].id ≠ cid → (renameChat chats cid t)[i]? = some chats[i]) ∧
        (chats[i].id = cid →
          (renameChat chats cid t)[i]? = some { chats[i] with title := jsTrim t })) := by
  constructor
  · intro hb
    unfold renameChat
    rw [hb]
    rfl
  · intro hb
    unfold renameChat
    rw [hb]
    simp only [Bool.not_false, if_true, List.length_map]
    refine ⟨by simp, ?_⟩
    intro i hi
    constructor
    · intro hne
      rw [List.getElem?_map, List.getElem?_eq_getElem hi]
      simp [hne]
    · intro heq
      rw [List.getElem?_map, List.getElem?_eq_getElem hi]
      simp [heq]

theorem c10_renameChat_frame_witness :
    ((jsTrim (str "  Fancy name  ")).isEmpty = false →
      (renameChat demoChats (str "c1") (str "  Fancy name  ")).length = demoChats.length ∧
      ∀ i (hi : i < demoChats.length),
        (demoChats[i].id ≠ str "c1" →
          (renameChat demoChats (str "c1") (str "  Fancy name  "))[i]? = some demoChats[i]) ∧
        (demoChats[i].id = str "c1" →
          (renameChat demoChats (str "c1") (str "  Fancy name  "))[i]? =
            some { demoChats[i] with title := jsTrim (str "  Fancy name  ") })) :=
  (c10_renameChat_frame demoChats (str "c1") (str "  Fancy name  ")).2

/-!
## The streaming invariant (C7)
-/

theorem updateLast_dropLast (f : Message → Message) :
    ∀ l : List Message, (updateLast f l).dropLast = l.dropLast
  | [] => rfl
  | [_] => rfl
  | a :: b :: l => by
    have ih := updateLast_dropLast f (b :: l)
    obtain ⟨c, t, hct⟩ : ∃ c t, updateLast f (b :: l) = c :: t := by
      cases l <;> exact ⟨_, _, rfl⟩
    have hstep : updateLast f (a :: b :: l) = a :: updateLast f (b :: l) := by
      simp only [updateLast]
    rw [hstep, hct, List.dropLast_cons₂, ← hct, ih, List.dropLast_cons₂]

theorem applyFrame_dropLast (l : List Message) (fr : StreamFrame) :
    (applyFrame l fr).dropLast = l.dropLast := by
  rcases fr with ⟨ch, su, dn⟩
  cases ch with
  | none => cases dn <;> simp [applyFrame, updateLast_dropLast]
  | some s =>
    by_cases hs : s.isEmpty <;> cases dn <;>
      simp [applyFrame, hs, updateLast_dropLast]

theorem applyError_dropLast (l : List Message) :
    (applyError l).dropLast = l.dropLast :=
  updateLast_dropLast _ l

theorem applyError_mem_isStreaming (l : List Message) (m : Message)
    (hd : ∀ x ∈ l.dropLast, x.isStreaming = false) (hm : m ∈ applyError l) :
    m.isStreaming = false := by
  rcases List.eq_nil_or_concat l with rfl | ⟨l', a, rfl⟩
  · simp [applyError, updateLast] at hm
  · rw [List.concat_eq_append, applyError_append] at hm
    rcases List.mem_append.1 hm with h | h
    · exact hd m (by rwa [List.concat_eq_append, List.dropLast_concat])
    · simp at h
      rw [h]

/-- The invariant that survives every step of the guarded system. -/
theorem gstep_preserves (s s' : ChatState) (h : GStep s s')
    (h1 : ∀ m ∈ s.msgs.dropLast, m.isStreaming = false)
    (h2 : s.isLoading = false → ∀ m ∈ s.msgs, m.isStreaming = false) :
    (∀ m ∈ s'.msgs.dropLast, m.isStreaming = false) ∧
    (s'.isLoading = false → ∀ m ∈ s'.msgs, m.isStreaming = false) := by
  cases h with
  | send text uid aid uts ats htext hload =>
    constructor
    · intro m hm
      rw [show s.msgs ++ [userMsg uid text uts, assistantPlaceholder aid ats] =
          (s.msgs ++ [userMsg uid text uts]) ++ [assistantPlaceholder aid ats] by simp,
        List.dropLast_concat] at hm
      rcases List.mem_append.1 hm with hmem | hmem
      · exact h2 hload m hmem
      · simp at hmem
        rw [hmem]
        rfl
    · intro hfalse
      simp at hfalse
  | frame fr hload =>
    refine ⟨?_, by intro hfalse; simp at hfalse⟩
    intro m hm
    rw [applyFrame_dropLast] at hm
    exact h1 m hm
  | streamEnd hload hlast =>
    refine ⟨h1, ?_⟩
    intro _ m hm
    rcases List.eq_nil_or_concat s.msgs with hnil | ⟨l', a, hconcat⟩
    · rw [hnil] at hm
      simp at hm
    · rw [List.concat_eq_append] at hconcat
      rw [hconcat] at hm hlast
      rcases List.mem_append.1 hm with hmem | hmem
      · exact h1 m (by rw [hconcat, List.dropLast_concat]; exact hmem)
      · simp at hmem
        rw [List.getLast?_concat] at hlast
        simp [Option.all] at hlast
        rw [hmem, hlast]
  | streamErr hload =>
    exact ⟨fun m hm => h1 m (by rwa [applyError_dropLast] at hm),
      fun _ m hm => applyError_mem_isStreaming s.msgs m h1 hm⟩
  | retry idx um hidx hget hrole =>
    have hlt : idx - 1 < s.msgs.length := (List.get?_eq_some.1 hget).1
    have htake : ∀ m ∈ s.msgs.take (idx - 1), m.isStreaming = false := by
      intro m hm
      rw [show s.msgs.take (idx - 1) = (s.msgs.dropLast).take (idx - 1) by
        rw [List.dropLast_eq_take, List.take_take]
        congr 1
        omega] at hm
      exact h1 m (List.take_subset _ _ hm)
    exact ⟨fun m hm => htake m (List.dropLast_subset _ hm),
      fun _ m hm => htake m hm⟩

theorem greach_inv (s : ChatState) (h : GReach s) :
    (∀ m ∈ s.msgs.dropLast, m.isStreaming = false) ∧
    (s.isLoading = false → ∀ m ∈ s.msgs, m.isStreaming = false) := by
  induction h with
  | refl => exact ⟨by simp [initState], by intro _; simp [initState]⟩
  | tail hsteps hstep ih => exact gstep_preserves _ _ hstep ih.1 ih.2

/-- **C7**, counterexample — the invariant "at most one Message per Chat is
streaming, and it is the last" does *not* hold over all reachable states of
the code's transition system: a stream may end without a `done` frame
(which leaves its message streaming while clearing the loading flag), after
which a second send appends a second streaming placeholder.  `c7state` is
reachable by exactly that trace and has a streaming message that is not
last. -/
theorem c7_counterexample :
    Reach c7state ∧ lastOnlyStreaming c7state.msgs = false := by
  constructor
  · have h1 : Step initState c7s1 :=
      Step.send initState (str "hi") (str "u1") (str "a1") (str "09:00") (str "09:00")
        (by decide) rfl
    have h2 : Step c7s1 c7s2 :=
      Step.frame c7s1 { chunk := some (str "He"), search_used := false, done := false } rfl
    have h3 : Step c7s2 c7s3 := Step.streamEnd c7s2 rfl
    have h4 : Step c7s3 c7state :=
      Step.send c7s3 (str "yo") (str "u2") (str "a2") (str "09:01") (str "09:01")
        (by decide) rfl
    exact .tail (.tail (.tail (.tail .refl h1) h2) h3) h4
  · decide

/-- **C7**, amended — the invariant does hold over every state reachable
when each stream is properly terminated, i.e. the read loop only ends after
a `done` frame (or the error handler) has cleared the streaming flag of the
in-progress message: then every message except possibly the last has
`isStreaming = false`, so at most one message is streaming and it is the
last one.  `sendMessage` (the `send`/`frame`/`streamEnd` steps), frame
processing, `retryMessage` (the `retry` truncation) and error recovery
(`streamErr`) all preserve it. -/
theorem c7_guarded_invariant (s : ChatState) (h : GReach s) :
    lastOnlyStreaming s.msgs = true := by
  have hinv := (greach_inv s h).1
  simp only [lastOnlyStreaming, List.all_eq_true]
  intro m hm
  simp [hinv m hm]

theorem c7_guarded_invariant_witness :
    lastOnlyStreaming c7w3.msgs = true := by
  have g1 : GStep initState c7s1 :=
    GStep.send initState (str "hi") (str "u1") (str "a1") (str "09:00") (str "09:00")
      (by decide) rfl
  have g2 : GStep c7s1 c7w2 :=
    GStep.frame c7s1 { chunk := none, search_used := false, done := true } rfl
  have g3 : GStep c7w2 c7w3 := GStep.streamEnd c7w2 rfl (by decide)
  exact c7_guarded_invariant c7w3 (.tail (.tail (.tail .refl g1) g2) g3)

/-!
## Concrete renderer scenarios (C3, C6, C9)
-/

/-- **C3**, counterexample — the renderer does not HTML-escape `<`/`>`
coming from user content: for the fence-free, table-free input `"a<b"` the
raw `<` reaches the output verbatim (no `&lt;` is produced).  Moreover the
non-empty input `"\n"` produces *empty* output (its wrapped form
`<p><br></p>` is deleted by the cleanup stage), so non-empty input does not
always yield non-empty block-wrapped output. -/
theorem c3_counterexample :
    formatMessage (str "a<b") = str "<p>a<b</p>" ∧
    ¬ (str "&lt;") <:+: formatMessage (str "a<b") ∧
    formatMessage (str "\n") = [] := by decide

/-- **C6**, counterexample — for the three-line input
`"|a|b|\n|---|---|\n|1|2|"` (no trailing newline) the claim promises a
table with a header row `a`,`b` *and* a data row `1`,`2`.  In the source
the table regex `(\|.+\|[\r\n]+)+` requires every captured line to be
newline-terminated, so the final `|1|2|` is left outside the match: the
output table has only the header row, and `|1|2|` trails as plain text —
there is no `<td>` cell at all. -/
theorem c6_counterexample :
    formatMessage (str "|a|b|\n|---|---|\n|1|2|") =
      str "<table class=\"msg-table\"><tr><th>a</th><th>b</th></tr></table>|1|2|" ∧
    ¬ (str "<td>") <:+: formatMessage (str "|a|b|\n|---|---|\n|1|2|") := by decide

/-- **C6**, amended — with the data line newline-terminated
(`"|a|b|\n|---|---|\n|1|2|\n"`) the renderer produces exactly one table
with one header row (`th` cells `a`,`b`) and one data row (`td` cells
`1`,`2`), the alignment-separator row being dropped; and the lone line
`"|a|b|"` with no second line produces no table element. -/
theorem c6_table_scenarios :
    formatMessage (str "|a|b|\n|---|---|\n|1|2|\n") =
      str "<table class=\"msg-table\"><tr><th>a</th><th>b</th></tr><tr><td>1</td><td>2</td></tr></table>" ∧
    formatMessage (str "|a|b|") = str "<p>|a|b|</p>" ∧
    ¬ (str "<table") <:+: formatMessage (str "|a|b|") := by decide

/-- **C9**, counterexample — monotonic stability of completed blocks fails:
`P := "x ``` y\n\n"` ends exactly at a paragraph boundary and renders to
the single block-level element `<p>x ``` y</p>`; but extending it with
`"z```w"` closes a fence whose opener sat inside `P`, so that block
disappears from the rendering of the grown string (the block element of
`formatMessage P` is not present in `formatMessage S`). -/
theorem c9_counterexample :
    formatMessage (str "x ``` y\n\n") = str "<p>x ``` y</p>" ∧
    ¬ (str "<p>x ``` y</p>") <:+: formatMessage (str "x ``` y\n\nz```w") := by decide

/-!
## A toolkit for occurrences and the scanners

The universal renderer claims are settled with a small theory of substring
occurrences: an occurrence of a pattern `T` cannot overlap characters that
do not belong to `T`, so matches of the various scanners either keep it
inside a capture group or leave it untouched.
-/

theorem mem_token_of_getElem {T : LC} (u v : LC) (i : Nat) (hge : u.length ≤ i)
    (hlt : i < u.length + T.length) (c : Char)
    (hc : (u ++ T ++ v)[i]? = some c) : c ∈ T := by
  rw [List.append_assoc, List.getElem?_append_right hge] at hc
  rw [List.getElem?_append, if_pos (by omega)] at hc
  exact List.getElem?_mem hc

theorem infix_of_append_inner {T u v m z : LC} (h : u ++ T ++ v = m ++ z)
    (hle : u.length + T.length ≤ m.length) : T <:+: m := by
  have h1 : u ++ T <+: m ++ z := ⟨v, by simpa [List.append_assoc] using h⟩
  have hpre : u ++ T <+: m :=
    (List.isPrefix_append_of_length (by simpa using hle)).1 h1
  exact (List.suffix_append u T).isInfix.trans hpre.isInfix

theorem infix_of_append_outer {T u v m z : LC} (h : u ++ T ++ v = m ++ z)
    (hge : m.length ≤ u.length) : T <:+: z := by
  have h1 : m <+: u ++ (T ++ v) := ⟨z, by simpa [List.append_assoc] using h.symm⟩
  have hm : m <+: u := (List.isPrefix_append_of_length hge).1 h1
  obtain ⟨u', rfl⟩ := hm
  have hz : z = u' ++ T ++ v := by
    have h2 : m ++ z = m ++ (u' ++ T ++ v) := by
      rw [← h]
      simp [List.append_assoc]
    exact List.append_cancel_left h2
  rw [hz]
  exact List.infix_append u' T v

theorem infix_split_cons {T : LC} {x r u v : LC} {c : Char}
    (h : u ++ T ++ v = x ++ c :: r) (hc : c ∉ T) : T <:+: x ∨ T <:+: r := by
  rcases Nat.lt_or_ge x.length u.length with hlt | hge
  · right
    have h' : u ++ T ++ v = (x ++ [c]) ++ r := by rw [h]; simp
    exact infix_of_append_outer h' (by simp; omega)
  · rcases Nat.lt_or_ge x.length (u.length + T.length) with hmid | hout
    · exfalso
      apply hc
      refine mem_token_of_getElem u v x.length hge hmid c ?_
      rw [h, List.getElem?_append_right (le_refl x.length)]
      simp
    · left
      exact infix_of_append_inner h hout

theorem infix_split_frame {T : LC} (hT : T ≠ []) :
    ∀ (mid x r : LC), T <:+: (x ++ mid ++ r) → (∀ c ∈ mid, c ∉ T) →
      mid = [] ∨ T <:+: x ∨ T <:+: r
  | [], _, _, _, _ => Or.inl rfl
  | [c], x, r, h, hcs => by
    obtain ⟨u, v, huv⟩ := h
    have huv' : u ++ T ++ v = x ++ c :: r := by rw [huv]; simp
    exact Or.inr (infix_split_cons huv' (hcs c (by simp)))
  | c :: c2 :: mid', x, r, h, hcs => by
    have h' : T <:+: (x ++ [c] ++ ((c2 :: mid') ++ r)) := by
      simpa [List.append_assoc] using h
    obtain ⟨u, v, huv⟩ := h'
    have huv' : u ++ T ++ v = x ++ c :: ((c2 :: mid') ++ r) := by rw [huv]; simp
    rcases infix_split_cons huv' (hcs c (by simp)) with hx | hrest
    · exact Or.inr (Or.inl hx)
    · have hrec := infix_split_frame hT (c2 :: mid') [] r (by simpa using hrest)
        (fun d hd => hcs d (List.mem_cons_of_mem c hd))
      rcases hrec with hnil | hx0 | hr
      · exact absurd hnil (by simp)
      · exact absurd (List.infix_nil.1 hx0) hT
      · exact Or.inr (Or.inr hr)

theorem infix_strip_left {T pfx body : LC} (hT : T ≠ []) (h : T <:+: pfx ++ body)
    (hp : ∀ c ∈ pfx, c ∉ T) : T <:+: body := by
  rcases infix_split_frame hT pfx [] body (by simpa using h) hp with hnil | hx | hb
  · rw [hnil] at h
    simpa using h
  · exact absurd (List.infix_nil.1 hx) hT
  · exact hb

theorem infix_strip_right {T body sfx : LC} (hT : T ≠ []) (h : T <:+: body ++ sfx)
    (hs : ∀ c ∈ sfx, c ∉ T) : T <:+: body := by
  rcases infix_split_frame hT sfx body [] (by simpa using h) hs with hnil | hb | hx
  · rw [hnil] at h
    simpa using h
  · exact hb
  · exact absurd (List.infix_nil.1 hx) hT

/-!
### Generic facts about `scanF`
-/

theorem scanF_nil (M : Matcher) (fuel : Nat) : scanF M fuel [] = [] := by
  cases fuel <;> rfl

theorem scanF_cons_none (M : Matcher) (fuel : Nat) (c : Char) (rest : LC)
    (h : M (c :: rest) = none) :
    scanF M (fuel + 1) (c :: rest) = c :: scanF M fuel rest := by
  simp only [scanF]
  split
  · rename_i k repl heq
    rw [h] at heq
    cases heq
  · rfl

theorem scanF_cons_some (M : Matcher) (fuel : Nat) (c : Char) (rest : LC)
    (k : Nat) (repl : LC) (h : M (c :: rest) = some (k, repl)) :
    scanF M (fuel + 1) (c :: rest) = repl ++ scanF M fuel (rest.drop k) := by
  simp only [scanF]
  split
  · rename_i k' repl' heq
    rw [h] at heq
    cases heq
    rfl
  · rename_i heq
    rw [h] at heq
    cases heq

/-- If the matcher rejects every suffix, the scan is the identity. -/
theorem scanF_eq_of_none (M : Matcher) :
    ∀ (fuel : Nat) (l : LC), (∀ s, s <:+ l → M s = none) → scanF M fuel l = l
  | 0, _, _ => rfl
  | _ + 1, [], _ => rfl
  | fuel + 1, c :: rest, h => by
    rw [scanF_cons_none M fuel c rest (h (c :: rest) (List.suffix_refl _)),
      scanF_eq_of_none M fuel rest (fun s hs => h s (hs.trans (List.suffix_cons c rest)))]

/-- The scan copies characters that can never start a match. -/
theorem scanF_copy (M : Matcher) (trig : Char → Bool)
    (hM : ∀ c rest r, M (c :: rest) = some r → trig c = true) :
    ∀ (A u : LC) (fuel : Nat), A.length + u.length ≤ fuel → (∀ c ∈ A, trig c = false) →
      scanF M fuel (A ++ u) = A ++ scanF M (fuel - A.length) u
  | [], u, fuel, _, _ => by simp
  | a :: A', u, fuel, hlen, hfree => by
    cases fuel with
    | zero => simp at hlen
    | succ f =>
      have hnone : M (a :: (A' ++ u)) = none := by
        cases hMa : M (a :: (A' ++ u)) with
        | none => rfl
        | some r =>
          have := hM a _ r hMa
          rw [hfree a (by simp)] at this
          exact absurd this (by simp)
      rw [List.cons_append, scanF_cons_none M f a (A' ++ u) hnone,
        scanF_copy M trig hM A' u f (by simp at hlen ⊢; omega)
          (fun c hc => hfree c (List.mem_cons_of_mem a hc))]
      simp [List.length_cons, Nat.succ_sub_succ]

/-- Generic survival: a token `T` whose characters never start a match, and
which every overlapping match keeps inside its replacement, survives the
whole scan. -/
theorem scanF_keeps (M : Matcher) (trig : Char → Bool) (T : LC) (hT : T ≠ [])
    (hHead : ∀ c rest r, M (c :: rest) = some r → trig c = true)
    (hTfree : ∀ c ∈ T, trig c = false)
    (hH1 : ∀ u v k repl, M (u ++ T ++ v) = some (k, repl) → u.length ≤ k → T <:+: repl) :
    ∀ (fuel : Nat) (l : LC), l.length ≤ fuel → T <:+: l → T <:+: scanF M fuel l := by
  intro fuel
  induction fuel with
  | zero => exact fun l _ h => h
  | succ f ih =>
    intro l hl hinf
    obtain ⟨u, v, hl_eq⟩ := hinf
    cases l with
    | nil =>
      rw [scanF_nil]
      exact ⟨u, v, hl_eq⟩
    | cons c rest =>
      cases hM : M (c :: rest) with
      | none =>
        rw [scanF_cons_none M f c rest hM]
        cases u with
        | nil =>
          cases T with
          | nil => exact absurd rfl hT
          | cons t T' =>
            have hl_eq' : c :: rest = t :: (T' ++ v) := by simpa using hl_eq.symm
            have hct : t = c := by injection hl_eq' with h1 h2; exact h1.symm
            have hrest : rest = T' ++ v := by injection hl_eq' with h1 h2
            have hcopy := scanF_copy M trig hHead T' v f
              (by
                have : rest.length ≤ f := by simp at hl; omega
                rw [hrest] at this
                simpa using this)
              (fun d hd => hTfree d (List.mem_cons_of_mem t hd))
            rw [hrest, hcopy, hct]
            exact (List.prefix_append (c :: T') _).isInfix
        | cons a u' =>
          have hl_eq' : a :: (u' ++ T ++ v) = c :: rest := by simpa using hl_eq
          have hrest : u' ++ T ++ v = rest := by injection hl_eq' with h1 h2
          have hres := ih rest (by simp at hl; omega) ⟨u', v, hrest⟩
          exact List.infix_cons hres
      | some kr =>
        obtain ⟨k, repl⟩ := kr
        rw [scanF_cons_some M f c rest k repl hM]
        rcases le_or_lt u.length k with hle | hgt
        · have hkeep := hH1 u v k repl (by rwa [← hl_eq] at hM) hle
          exact hkeep.trans (List.prefix_append repl _).isInfix
        · have hdrop : rest.drop k = u.drop (k + 1) ++ T ++ v := by
            have hstep : rest.drop k = (c :: rest).drop (k + 1) := by
              rw [List.drop_succ_cons]
            rw [hstep, ← hl_eq, List.append_assoc,
              List.drop_append_of_le_length (by omega), ← List.append_assoc]
          have hinf' : T <:+: rest.drop k := by
            rw [hdrop]
            exact List.infix_append _ T v
          have hlen' : (rest.drop k).length ≤ f := by
            simp at hl ⊢
            omega
          exact (ih _ hlen' hinf').trans (List.suffix_append repl _).isInfix

theorem runScan_eq_of_none (M : Matcher) (l : LC)
    (h : ∀ s, s <:+ l → M s = none) : runScan M l = l :=
  scanF_eq_of_none M l.length l h

theorem runScan_keeps (M : Matcher) (trig : Char → Bool) (T : LC) (hT : T ≠ [])
    (hHead : ∀ c rest r, M (c :: rest) = some r → trig c = true)
    (hTfree : ∀ c ∈ T, trig c = false)
    (hH1 : ∀ u v k repl, M (u ++ T ++ v) = some (k, repl) → u.length ≤ k → T <:+: repl)
    (l : LC) (hinf : T <:+: l) : T <:+: runScan M l :=
  scanF_keeps M trig T hT hHead hTfree hH1 l.length l (le_refl _) hinf

/-- A scan whose matcher only fires on one trigger character is the
identity on strings free of that character. -/
theorem runScan_id_of_trigfree (M : Matcher) (trigc : Char)
    (hM : ∀ c rest r, M (c :: rest) = some r → c = trigc) (hMnil : M [] = none)
    (l : LC) (hfree : ∀ c ∈ l, c ≠ trigc) : runScan M l = l := by
  apply runScan_eq_of_none
  intro s hs
  cases s with
  | nil => exact hMnil
  | cons c r =>
    cases hMs : M (c :: r) with
    | none => rfl
    | some x => exact absurd (hM c r x hMs) (hfree c (hs.subset (by simp)))

/-- Decompose a suffix of a concatenation. -/
theorem suffix_append_cases {s P Q : LC} (h : s <:+ P ++ Q) :
    s <:+ Q ∨ ∃ P', P' <:+ P ∧ P' ≠ [] ∧ s = P' ++ Q := by
  obtain ⟨x, hx⟩ := h
  rcases le_or_lt s.length Q.length with hle | hgt
  · left
    rw [← List.reverse_prefix]
    have hrev : Q.reverse ++ P.reverse = s.reverse ++ x.reverse := by
      rw [← List.reverse_append, ← List.reverse_append, hx]
    have h1 : s.reverse <+: Q.reverse ++ P.reverse := ⟨x.reverse, hrev.symm⟩
    exact (List.isPrefix_append_of_length (by simpa using hle)).1 h1
  · right
    have hxlen : x.length ≤ P.length := by
      have := congrArg List.length hx
      simp at this
      omega
    refine ⟨P.drop x.length, List.drop_suffix _ _, ?_, ?_⟩
    · have : (P.drop x.length).length = P.length - x.length := by simp
      intro hnil
      rw [hnil] at this
      simp at this
      have hlen := congrArg List.length hx
      simp at hlen
      omega
    · have hdrop : (x ++ s).drop x.length = s := by simp
      rw [hx] at hdrop
      rw [List.drop_append_of_le_length hxlen] at hdrop
      exact hdrop.symm

/-- Decompose a suffix of a three-part concatenation. -/
theorem suffix_cases3 {s P A R : LC} (hs : s <:+ P ++ A ++ R) :
    (∃ P', P' <:+ P ∧ P' ≠ [] ∧ s = P' ++ (A ++ R)) ∨
    (∃ A', A' <:+ A ∧ A' ≠ [] ∧ s = A' ++ R) ∨ s <:+ R := by
  rw [List.append_assoc] at hs
  rcases suffix_append_cases hs with h1 | ⟨P', hP', hne, rfl⟩
  · rcases suffix_append_cases h1 with h2 | ⟨A', hA', hne, rfl⟩
    · exact Or.inr (Or.inr h2)
    · exact Or.inr (Or.inl ⟨A', hA', hne, rfl⟩)
  · exact Or.inl ⟨P', hP', hne, rfl⟩

/-- A nonempty prefix pattern fails on a string with a different head. -/
theorem isPrefixOf_false_of_head (p : Char) (ps l : LC) (h : l.head? ≠ some p) :
    (p :: ps).isPrefixOf l = false := by
  cases l with
  | nil => rfl
  | cons c r =>
    have hne : p ≠ c := by
      intro hh
      exact h (by rw [hh]; rfl)
    simp [List.isPrefixOf_cons₂, beq_iff_eq, hne]

/-- A successful prefix test forces the head. -/
theorem isPrefixOf_head (pat l : LC) (h : pat.isPrefixOf l = true) (p : Char)
    (hp : pat.head? = some p) : l.head? = some p := by
  obtain ⟨t, ht⟩ := List.isPrefixOf_iff_prefix.1 h
  cases pat with
  | nil => cases hp
  | cons q qs =>
    cases l with
    | nil => cases ht
    | cons c r =>
      injection ht with h1 h2
      rw [← h1]
      exact hp

/-!
### Which character each matcher of the pipeline fires on
-/

theorem litM_fires (pat repl : LC) (c : Char) (rest : LC) (r : Nat × LC)
    (h : litM pat repl (c :: rest) = some r) : pat.head? = some c := by
  unfold litM at h
  split at h
  · rename_i hcond
    simp only [Bool.and_eq_true, Bool.not_eq_true'] at hcond
    obtain ⟨hpre, hne⟩ := hcond
    have := List.isPrefixOf_iff_prefix.1 hpre
    cases pat with
    | nil => simp at hne
    | cons p ps =>
      obtain ⟨t, ht⟩ := this
      injection ht with h1 h2
      simp [h1]
  · cases h

theorem nlRun_pos_head (l : LC) (h : 1 ≤ nlRun l) : l.head? = some '\n' := by
  cases l with
  | nil => simp [nlRun] at h
  | cons c r =>
    by_cases hc : c = '\n'
    · rw [hc]; rfl
    · simp [nlRun, hc] at h

theorem collapseM_fires (c : Char) (rest : LC) (r : Nat × LC)
    (h : collapseM (c :: rest) = some r) : c = '\n' := by
  simp only [collapseM] at h
  split at h
  · rename_i hge
    have := nlRun_pos_head (c :: rest) (by omega)
    simpa using this
  · cases h

theorem paraM_fires (c : Char) (rest : LC) (r : Nat × LC)
    (h : paraM (c :: rest) = some r) : c = '\n' := by
  simp only [paraM] at h
  split at h
  · rename_i hge
    have := nlRun_pos_head (c :: rest) (by omega)
    simpa using this
  · cases h

theorem inlineCodeM_fires (c : Char) (rest : LC) (r : Nat × LC)
    (h : inlineCodeM (c :: rest) = some r) : c = '`' := by
  by_contra hc
  simp [inlineCodeM, hc] at h

theorem boldM_fires (c : Char) (rest : LC) (r : Nat × LC)
    (h : boldM (c :: rest) = some r) : c = '*' := by
  by_contra hc
  cases rest with
  | nil => simp [boldM] at h
  | cons b rest2 =>
    cases rest2 with
    | nil => simp [boldM] at h
    | cons c0 rest3 => simp [boldM, hc] at h

theorem italM_fires (c : Char) (rest : LC) (r : Nat × LC)
    (h : italM (c :: rest) = some r) : c = '*' := by
  by_contra hc
  cases rest with
  | nil => simp [italM] at h
  | cons c0 rest2 => simp [italM, hc] at h

theorem linkM_fires (c : Char) (rest : LC) (r : Nat × LC)
    (h : linkM (c :: rest) = some r) : c = '[' := by
  by_contra hc
  simp [linkM, hc] at h

theorem hCloseBrM_fires (c : Char) (rest : LC) (r : Nat × LC)
    (h : hCloseBrM (c :: rest) = some r) : c = '<' := by
  unfold hCloseBrM at h
  split at h
  · rename_i hpre
    have := isPrefixOf_head _ _ hpre '<' rfl
    simpa using this
  · split at h
    · rename_i hpre
      have := isPrefixOf_head _ _ hpre '<' rfl
      simpa using this
    · split at h
      · rename_i hpre
        have := isPrefixOf_head _ _ hpre '<' rfl
        simpa using this
      · cases h

theorem tableUnit_fires (c : Char) (rest : LC) (r : LC × LC)
    (h : tableUnit (c :: rest) = some r) : c = '|' := by
  by_contra hc
  simp only [tableUnit] at h
  by_cases hnl : isNlCr c
  · rw [List.takeWhile_cons] at h
    simp [hnl] at h
  · rw [List.takeWhile_cons] at h
    simp [hnl, hc] at h

theorem tableM_fires (c : Char) (rest : LC) (r : Nat × LC)
    (h : tableM (c :: rest) = some r) : c = '|' := by
  unfold tableM at h
  cases hu : tableUnits (c :: rest).length (c :: rest) with
  | none => rw [hu] at h; cases h
  | some p =>
    have hlen : (c :: rest).length = rest.length + 1 := by simp
    rw [hlen] at hu
    unfold tableUnits at hu
    cases ht : tableUnit (c :: rest) with
    | none => rw [ht] at hu; cases hu
    | some q => exact tableUnit_fires c rest q ht

theorem groupUnit_fires (c : Char) (rest : LC) (r : LC × LC)
    (h : groupUnit (c :: rest) = some r) : c = '<' := by
  unfold groupUnit at h
  split at h
  · rename_i hpre
    have := isPrefixOf_head _ _ hpre '<' rfl
    simpa using this
  · cases h

theorem groupM_fires (c : Char) (rest : LC) (r : Nat × LC)
    (h : groupM (c :: rest) = some r) : c = '<' := by
  unfold groupM at h
  cases hu : groupUnits (c :: rest).length (c :: rest) with
  | none => rw [hu] at h; cases h
  | some p =>
    have hlen : (c :: rest).length = rest.length + 1 := by simp
    rw [hlen] at hu
    unfold groupUnits at hu
    cases ht : groupUnit (c :: rest) with
    | none => rw [ht] at hu; cases hu
    | some q => exact groupUnit_fires c rest q ht

/-!
### Line-based stages: identity on lines that do not match
-/

theorem splitOnChar_ne_nil (sep : Char) (l : LC) : splitOnChar sep l ≠ [] := by
  cases l with
  | nil => simp [splitOnChar]
  | cons c r =>
    unfold splitOnChar
    by_cases hc : c = sep
    · simp [hc]
    · simp only [hc, if_false]
      cases splitOnChar sep r <;> simp

theorem joinNl_splitOnChar (s : LC) : joinNl (splitOnChar '\n' s) = s := by
  induction s with
  | nil => rfl
  | cons c r ih =>
    unfold splitOnChar
    by_cases hc : c = '\n'
    · simp only [hc, if_true]
      have hne := splitOnChar_ne_nil '\n' r
      cases hsp : splitOnChar '\n' r with
      | nil => exact absurd hsp hne
      | cons ℓ rest =>
        rw [hsp] at ih
        show joinNl ([] :: ℓ :: rest) = '\n' :: r
        rw [show joinNl ([] :: ℓ :: rest) = [] ++ '\n' :: joinNl (ℓ :: rest) from rfl]
        rw [ih]
        simp [hc]
    · simp only [hc, if_false]
      have hne := splitOnChar_ne_nil '\n' r
      cases hsp : splitOnChar '\n' r with
      | nil => exact absurd hsp hne
      | cons ℓ rest =>
        rw [hsp] at ih
        cases rest with
        | nil =>
          show joinNl [c :: ℓ] = c :: r
          show c :: ℓ = c :: r
          have : joinNl [ℓ] = ℓ := rfl
          rw [this] at ih
          rw [ih]
        | cons ℓ2 rest2 =>
          show joinNl ((c :: ℓ) :: ℓ2 :: rest2) = c :: r
          show (c :: ℓ) ++ '\n' :: joinNl (ℓ2 :: rest2) = c :: r
          have : joinNl (ℓ :: ℓ2 :: rest2) = ℓ ++ '\n' :: joinNl (ℓ2 :: rest2) := rfl
          rw [this] at ih
          simp only [List.cons_append]
          rw [ih]

theorem mem_of_mem_splitOnChar (sep : Char) :
    ∀ (s : LC) (ℓ : LC), ℓ ∈ splitOnChar sep s → ∀ c ∈ ℓ, c ∈ s := by
  intro s
  induction s with
  | nil =>
    intro ℓ hℓ c hc
    simp [splitOnChar] at hℓ
    rw [hℓ] at hc
    simp at hc
  | cons a r ih =>
    intro ℓ hℓ c hc
    unfold splitOnChar at hℓ
    by_cases ha : a = sep
    · simp only [ha, if_true] at hℓ
      rcases List.mem_cons.1 hℓ with rfl | hmem
      · simp at hc
      · exact List.mem_cons_of_mem a (ih ℓ hmem c hc)
    · simp only [ha, if_false] at hℓ
      cases hsp : splitOnChar sep r with
      | nil => exact absurd hsp (splitOnChar_ne_nil sep r)
      | cons ℓ0 rest =>
        rw [hsp] at hℓ
        rcases List.mem_cons.1 hℓ with rfl | hmem
        · rcases List.mem_cons.1 hc with rfl | hc2
          · simp
          · exact List.mem_cons_of_mem a (ih ℓ0 (by rw [hsp]; simp) c hc2)
        · exact List.mem_cons_of_mem a (ih ℓ (by rw [hsp]; simp [hmem]) c hc)

theorem linesMap_id (f : LC → LC) (s : LC)
    (h : ∀ ℓ ∈ splitOnChar '\n' s, f ℓ = ℓ) : linesMap f s = s := by
  unfold linesMap
  rw [List.map_congr_left h]
  simp only [List.map_id_fun', id]
  exact joinNl_splitOnChar s

theorem plainChar_ne (c : Char) (h : plainChar c) (d : Char)
    (hd : d.isAlpha = false ∧ d ≠ ' ') : c ≠ d := by
  intro hcd
  subst hcd
  rcases h with ha | hs
  · rw [ha] at hd
    exact absurd hd.1 (by simp)
  · exact hd.2 hs

theorem head?_ne_of_plain (ℓ : LC) (sub : ∀ c ∈ ℓ, plainChar c) (d : Char)
    (hd : d.isAlpha = false ∧ d ≠ ' ') : ℓ.head? ≠ some d := by
  cases ℓ with
  | nil => simp
  | cons c r =>
    simp only [List.head?_cons, ne_eq, Option.some.injEq]
    exact plainChar_ne c (sub c (by simp)) d hd

theorem bqLine_id (ℓ : LC) (h : ℓ.head? ≠ some '>') : bqLine ℓ = ℓ := by
  have hf : (str "> ").isPrefixOf ℓ = false := isPrefixOf_false_of_head '>' [' '] ℓ h
  simp [bqLine, hf]

theorem h3Line_id (ℓ : LC) (h : ℓ.head? ≠ some '#') : h3Line ℓ = ℓ := by
  have hf : (str "### ").isPrefixOf ℓ = false :=
    isPrefixOf_false_of_head '#' (str "## ") ℓ h
  simp [h3Line, hf]

theorem h2Line_id (ℓ : LC) (h : ℓ.head? ≠ some '#') : h2Line ℓ = ℓ := by
  have hf : (str "## ").isPrefixOf ℓ = false :=
    isPrefixOf_false_of_head '#' (str "# ") ℓ h
  simp [h2Line, hf]

theorem h1Line_id (ℓ : LC) (h : ℓ.head? ≠ some '#') : h1Line ℓ = ℓ := by
  have hf : (str "# ").isPrefixOf ℓ = false := isPrefixOf_false_of_head '#' [' '] ℓ h
  simp [h1Line, hf]

theorem liLine_id (ℓ : LC) (h : ℓ.head? ≠ some '-') : liLine ℓ = ℓ := by
  have hf : (str "- ").isPrefixOf ℓ = false := isPrefixOf_false_of_head '-' [' '] ℓ h
  simp [liLine, hf]

theorem hrLine_id (ℓ : LC) (h : ℓ ≠ str "---") : hrLine ℓ = ℓ := by
  simp [hrLine, h]

theorem isAlpha_not_digit (c : Char) (h : c.isAlpha = true) : c.isDigit = false := by
  simp [Char.isAlpha, Char.isLower, Char.isUpper, Char.isDigit] at h ⊢
  intro h48
  have h48n : (48 : Nat) ≤ c.val.toNat := h48
  show 57 < c.val.toNat
  rcases h with ⟨ha, hb⟩ | ⟨ha, hb⟩
  · have ha' : (65 : Nat) ≤ c.val.toNat := ha
    have hb' : c.val.toNat ≤ (90 : Nat) := hb
    omega
  · have ha' : (97 : Nat) ≤ c.val.toNat := ha
    have hb' : c.val.toNat ≤ (122 : Nat) := hb
    omega

theorem plainChar_not_digit (c : Char) (h : plainChar c) : c.isDigit = false := by
  rcases h with ha | hs
  · exact isAlpha_not_digit c ha
  · rw [hs]
    decide

theorem olLine_id (ℓ : LC) (h : ∀ c, ℓ.head? = some c → c.isDigit = false) :
    olLine ℓ = ℓ := by
  have hds : ℓ.takeWhile isDigitChar = [] := by
    cases ℓ with
    | nil => rfl
    | cons c r =>
      rw [List.takeWhile_cons]
      simp [isDigitChar, h c rfl]
  simp [olLine, hds]

/-- The fence stage leaves a backtick-free text untouched and stores
nothing. -/
theorem fenceF_no_backtick : ∀ (fuel : Nat) (l : LC) (i : Nat) (bs : List LC),
    (∀ c ∈ l, c ≠ '`') → fenceF fuel l i bs = (l, bs)
  | 0, _, _, _, _ => rfl
  | _ + 1, [], _, _, _ => rfl
  | fuel + 1, c :: rest, i, bs, h => by
    have hpre : (str "```").isPrefixOf (c :: rest) = false := by
      refine isPrefixOf_false_of_head '`' _ _ ?_
      simp only [List.head?_cons, ne_eq, Option.some.injEq]
      exact fun hh => h c (by simp) hh
    simp only [fenceF, hpre, Bool.false_eq_true, if_false]
    rw [fenceF_no_backtick fuel rest i bs (fun d hd => h d (List.mem_cons_of_mem c hd))]

theorem M_none_of_head (M : Matcher) (trigc : Char)
    (hM : ∀ c rest r, M (c :: rest) = some r → c = trigc) (c : Char) (rest : LC)
    (hc : c ≠ trigc) : M (c :: rest) = none := by
  cases hMs : M (c :: rest) with
  | none => rfl
  | some x => exact absurd (hM c rest x hMs) hc

theorem litM_none_of_not_pref (pat repl l : LC) (h : pat.isPrefixOf l = false) :
    litM pat repl l = none := by
  simp [litM, h]

/-- `scanF_copy` with individual no-match proofs for the copied region. -/
theorem scanF_copy_list (M : Matcher) :
    ∀ (A u : LC) (fuel : Nat), A.length + u.length ≤ fuel →
      (∀ A', A' <:+ A → A' ≠ [] → M (A' ++ u) = none) →
      scanF M fuel (A ++ u) = A ++ scanF M (fuel - A.length) u
  | [], u, fuel, _, _ => by simp
  | a :: A', u, fuel, hlen, h => by
    cases fuel with
    | zero => simp at hlen
    | succ f =>
      have hnone : M (a :: (A' ++ u)) = none := by
        have := h (a :: A') (List.suffix_refl _) (by simp)
        simpa using this
      rw [List.cons_append, scanF_cons_none M f a (A' ++ u) hnone,
        scanF_copy_list M A' u f (by simp at hlen ⊢; omega)
          (fun B hB hBne => h B (hB.trans (List.suffix_cons a A')) hBne)]
      simp [List.length_cons, Nat.succ_sub_succ]

theorem none_on_suffixes_of_mem (M : Matcher) (R : LC)
    (h : ∀ s ∈ R.tails, M s = none) : ∀ s, s <:+ R → M s = none :=
  fun s hs => h s ((List.mem_tails s R).2 hs)

theorem isPrefixOf_cons2_ne (p1 p2 c1 c2 : Char) (ps l : LC) (h : p2 ≠ c2) :
    (p1 :: p2 :: ps).isPrefixOf (c1 :: c2 :: l) = false := by
  simp [List.isPrefixOf_cons₂, beq_eq_false_iff_ne.2 h]

theorem isPrefixOf_cons4_ne (p4 : Char) (ps : LC) (c4 : Char) (l : LC) (h : p4 ≠ c4) :
    ('<' :: 'p' :: '>' :: p4 :: ps).isPrefixOf ('<' :: 'p' :: '>' :: c4 :: l) = false := by
  simp [List.isPrefixOf_cons₂, beq_eq_false_iff_ne.2 h]

theorem groupM_none_of_unit_none (l : LC) (h : groupUnit l = none) : groupM l = none := by
  unfold groupM
  cases hl : l.length with
  | zero => rfl
  | succ n =>
    unfold groupUnits
    rw [h]

theorem tableM_none_of_unit_none (l : LC) (h : tableUnit l = none) : tableM l = none := by
  unfold tableM
  cases hl : l.length with
  | zero => rfl
  | succ n =>
    unfold tableUnits
    rw [h]

/-- A `'<'`-triggered scan is the identity on a string
`"<p>" ++ A ++ R` whenever it rejects the string itself, rejects every
suffix of `R`, and `A` is free of `'<'`. -/
theorem runScan_id_shape (M : Matcher)
    (hM : ∀ c rest r, M (c :: rest) = some r → c = '<')
    (A R : LC) (hA : ∀ c ∈ A, c ≠ '<')
    (h0 : M (str "<p>" ++ (A ++ R)) = none)
    (hR : ∀ s, s <:+ R → M s = none) :
    runScan M (str "<p>" ++ A ++ R) = str "<p>" ++ A ++ R := by
  apply runScan_eq_of_none
  intro s hs
  rcases suffix_cases3 hs with ⟨P', hP', hPne, rfl⟩ | ⟨A', hA', hAne, rfl⟩ | h3
  · have hmem : P' ∈ [str "<p>", str "p>", str ">", ([] : LC)] := by
      have h1 : (str "<p>").tails = [str "<p>", str "p>", str ">", ([] : LC)] := by decide
      rw [← h1]
      exact (List.mem_tails _ _).2 hP'
    simp only [List.mem_cons, List.not_mem_nil, or_false] at hmem
    rcases hmem with rfl | rfl | rfl | rfl
    · exact h0
    · exact M_none_of_head M '<' hM 'p' _ (by decide)
    · exact M_none_of_head M '<' hM '>' _ (by decide)
    · exact absurd rfl hPne
  · cases A' with
    | nil => exact absurd rfl hAne
    | cons a A'' =>
      exact M_none_of_head M '<' hM a _ (hA a (hA'.subset (by simp)))
  · exact hR s h3

theorem litM_trig (pat repl : LC) (t : Char) (hh : pat.head? = some t) :
    ∀ c rest r, litM pat repl (c :: rest) = some r → c = t := by
  intro c rest r h
  have h1 := litM_fires pat repl c rest r h
  rw [hh] at h1
  injection h1 with h2
  exact h2.symm

theorem groupUnit_none_of_not_pref (l : LC)
    (h : (str "<li>").isPrefixOf l = false) : groupUnit l = none := by
  simp [groupUnit, h]

/-- Amended C3: a non-empty input of letters and spaces renders to
exactly the input wrapped in a single paragraph tag — no escaping, no
other transformation. -/
theorem c3_plain_text_wrapped (s : LC) (hne : s ≠ []) (hp : ∀ c ∈ s, plainChar c) :
    formatMessage s = str "<p>" ++ s ++ str "</p>" := by
  obtain ⟨a, s₂, rfl⟩ : ∃ a s₂, s = a :: s₂ := by
    cases s with
    | nil => exact absurd rfl hne
    | cons a s₂ => exact ⟨a, s₂, rfl⟩
  set s : LC := a :: s₂ with hs
  have hbq : ∀ c ∈ s, c ≠ '`' := fun c hc => plainChar_ne c (hp c hc) '`' (by decide)
  have hnl : ∀ c ∈ s, c ≠ '\n' := fun c hc => plainChar_ne c (hp c hc) '\n' (by decide)
  have hpi : ∀ c ∈ s, c ≠ '|' := fun c hc => plainChar_ne c (hp c hc) '|' (by decide)
  have hst : ∀ c ∈ s, c ≠ '*' := fun c hc => plainChar_ne c (hp c hc) '*' (by decide)
  have hlb : ∀ c ∈ s, c ≠ '[' := fun c hc => plainChar_ne c (hp c hc) '[' (by decide)
  have hlt : ∀ c ∈ s, c ≠ '<' := fun c hc => plainChar_ne c (hp c hc) '<' (by decide)
  have hlines : ∀ ℓ ∈ splitOnChar '\n' s, ∀ c ∈ ℓ, plainChar c :=
    fun ℓ hℓ c hc => hp c (mem_of_mem_splitOnChar '\n' s ℓ hℓ c hc)
  have e0 : fenceStage s = (s, ([] : List LC)) := by
    unfold fenceStage
    exact fenceF_no_backtick _ _ _ _ hbq
  have e1 : runScan collapseM s = s :=
    runScan_id_of_trigfree collapseM '\n' collapseM_fires (by decide) s hnl
  have e2 : runScan tableM s = s :=
    runScan_id_of_trigfree tableM '|' tableM_fires (by decide) s hpi
  have e3 : runScan inlineCodeM s = s :=
    runScan_id_of_trigfree inlineCodeM '`' inlineCodeM_fires (by decide) s hbq
  have e4 : linesMap bqLine s = s :=
    linesMap_id _ _ fun ℓ hℓ =>
      bqLine_id ℓ (head?_ne_of_plain ℓ (hlines ℓ hℓ) '>' (by decide))
  have e5 : linesMap h3Line s = s :=
    linesMap_id _ _ fun ℓ hℓ =>
      h3Line_id ℓ (head?_ne_of_plain ℓ (hlines ℓ hℓ) '#' (by decide))
  have e6 : linesMap h2Line s = s :=
    linesMap_id _ _ fun ℓ hℓ =>
      h2Line_id ℓ (head?_ne_of_plain ℓ (hlines ℓ hℓ) '#' (by decide))
  have e7 : linesMap h1Line s = s :=
    linesMap_id _ _ fun ℓ hℓ =>
      h1Line_id ℓ (head?_ne_of_plain ℓ (hlines ℓ hℓ) '#' (by decide))
  have e8 : runScan boldM s = s :=
    runScan_id_of_trigfree boldM '*' boldM_fires (by decide) s hst
  have e9 : runScan italM s = s :=
    runScan_id_of_trigfree italM '*' italM_fires (by decide) s hst
  have e10 : linesMap hrLine s = s := by
    refine linesMap_id _ _ fun ℓ hℓ => hrLine_id ℓ ?_
    intro heq
    have h1 : ('-' : Char) ∈ ℓ := by rw [heq]; decide
    exact plainChar_ne '-' (hlines ℓ hℓ '-' h1) '-' (by decide) rfl
  have e11 : linesMap liLine s = s :=
    linesMap_id _ _ fun ℓ hℓ =>
      liLine_id ℓ (head?_ne_of_plain ℓ (hlines ℓ hℓ) '-' (by decide))
  have e12 : linesMap olLine s = s := by
    refine linesMap_id _ _ fun ℓ hℓ => olLine_id ℓ fun c hc => ?_
    cases ℓ with
    | nil => cases hc
    | cons b t =>
      injection hc with h1
      subst h1
      exact plainChar_not_digit b (hlines _ hℓ b (by simp))
  have e13 : runScan linkM s = s :=
    runScan_id_of_trigfree linkM '[' linkM_fires (by decide) s hlb
  have e14 : runScan paraM s = s :=
    runScan_id_of_trigfree paraM '\n' paraM_fires (by decide) s hnl
  have e15 : runScan hCloseBrM s = s :=
    runScan_id_of_trigfree hCloseBrM '<' hCloseBrM_fires (by decide) s hlt
  have e16 : runScan (litM (str "<hr /><br>") (str "<hr />")) s = s :=
    runScan_id_of_trigfree _ '<' (litM_trig _ _ '<' (by rfl)) (by decide) s hlt
  have e17 : runScan (litM (str "</table><br>") (str "</table>")) s = s :=
    runScan_id_of_trigfree _ '<' (litM_trig _ _ '<' (by rfl)) (by decide) s hlt
  have e18 : runScan (litM (str "</ul><br>") (str "</ul>")) s = s :=
    runScan_id_of_trigfree _ '<' (litM_trig _ _ '<' (by rfl)) (by decide) s hlt
  have e19 : runScan (litM (str "</blockquote><br>") (str "</blockquote>")) s = s :=
    runScan_id_of_trigfree _ '<' (litM_trig _ _ '<' (by rfl)) (by decide) s hlt
  have e20 : runScan (litM (str "\n") (str "<br>")) s = s :=
    runScan_id_of_trigfree _ '\n' (litM_trig _ _ '\n' (by rfl)) (by decide) s hnl
  have e21 : wrapP s = str "<p>" ++ s ++ str "</p>" := by
    have hhd : s.head? ≠ some '<' := head?_ne_of_plain s hp '<' (by decide)
    have f1 : (str "<h").isPrefixOf s = false := isPrefixOf_false_of_head '<' _ s hhd
    have f2 : (str "<table").isPrefixOf s = false := isPrefixOf_false_of_head '<' _ s hhd
    have f3 : (str "<ul").isPrefixOf s = false := isPrefixOf_false_of_head '<' _ s hhd
    have f4 : (str "<div").isPrefixOf s = false := isPrefixOf_false_of_head '<' _ s hhd
    simp [wrapP, f1, f2, f3, f4]
  have hnea : ('<' : Char) ≠ a :=
    Ne.symm (plainChar_ne a (hp a (by rw [hs]; exact List.mem_cons_self a s₂)) '<' (by decide))
  have e22 : runScan (litM (str "<p></p>") []) (str "<p>" ++ s ++ str "</p>") =
      str "<p>" ++ s ++ str "</p>" := by
    refine runScan_id_shape _ (litM_trig _ _ '<' (by rfl)) s (str "</p>") hlt ?_
      (none_on_suffixes_of_mem _ _ (by decide))
    refine litM_none_of_not_pref _ _ _ ?_
    show (('<') :: ('p') :: ('>') :: ('<') :: str "/p>").isPrefixOf
      (('<') :: ('p') :: ('>') :: a :: (s₂ ++ str "</p>")) = false
    exact isPrefixOf_cons4_ne '<' _ a _ hnea
  have e23 : runScan (litM (str "<p><br></p>") []) (str "<p>" ++ s ++ str "</p>") =
      str "<p>" ++ s ++ str "</p>" := by
    refine runScan_id_shape _ (litM_trig _ _ '<' (by rfl)) s (str "</p>") hlt ?_
      (none_on_suffixes_of_mem _ _ (by decide))
    refine litM_none_of_not_pref _ _ _ ?_
    show (('<') :: ('p') :: ('>') :: ('<') :: str "br></p>").isPrefixOf
      (('<') :: ('p') :: ('>') :: a :: (s₂ ++ str "</p>")) = false
    exact isPrefixOf_cons4_ne '<' _ a _ hnea
  have e24 : runScan (litM (str "<br><br>") (str "<br>")) (str "<p>" ++ s ++ str "</p>") =
      str "<p>" ++ s ++ str "</p>" := by
    refine runScan_id_shape _ (litM_trig _ _ '<' (by rfl)) s (str "</p>") hlt ?_
      (none_on_suffixes_of_mem _ _ (by decide))
    refine litM_none_of_not_pref _ _ _ ?_
    show (('<') :: ('b') :: str "r><br>").isPrefixOf
      (('<') :: ('p') :: (('>') :: a :: (s₂ ++ str "</p>"))) = false
    exact isPrefixOf_cons2_ne '<' 'b' '<' 'p' _ _ (by decide)
  have e25 : runScan (litM (str "<p><br>") (str "<p>")) (str "<p>" ++ s ++ str "</p>") =
      str "<p>" ++ s ++ str "</p>" := by
    refine runScan_id_shape _ (litM_trig _ _ '<' (by rfl)) s (str "</p>") hlt ?_
      (none_on_suffixes_of_mem _ _ (by decide))
    refine litM_none_of_not_pref _ _ _ ?_
    show (('<') :: ('p') :: ('>') :: ('<') :: str "br>").isPrefixOf
      (('<') :: ('p') :: ('>') :: a :: (s₂ ++ str "</p>")) = false
    exact isPrefixOf_cons4_ne '<' _ a _ hnea
  have e26 : runScan (litM (str "<br></p>") (str "</p>")) (str "<p>" ++ s ++ str "</p>") =
      str "<p>" ++ s ++ str "</p>" := by
    refine runScan_id_shape _ (litM_trig _ _ '<' (by rfl)) s (str "</p>") hlt ?_
      (none_on_suffixes_of_mem _ _ (by decide))
    refine litM_none_of_not_pref _ _ _ ?_
    show (('<') :: ('b') :: str "r></p>").isPrefixOf
      (('<') :: ('p') :: (('>') :: a :: (s₂ ++ str "</p>"))) = false
    exact isPrefixOf_cons2_ne '<' 'b' '<' 'p' _ _ (by decide)
  have e27 : runScan groupM (str "<p>" ++ s ++ str "</p>") =
      str "<p>" ++ s ++ str "</p>" := by
    refine runScan_id_shape groupM groupM_fires s (str "</p>") hlt ?_
      (none_on_suffixes_of_mem _ _ (by decide))
    refine groupM_none_of_unit_none _ (groupUnit_none_of_not_pref _ ?_)
    show (('<') :: ('l') :: str "i>").isPrefixOf
      (('<') :: ('p') :: (('>') :: a :: (s₂ ++ str "</p>"))) = false
    exact isPrefixOf_cons2_ne '<' 'l' '<' 'p' _ _ (by decide)
  have er : ∀ l : LC, restoreBlocks [] l = l := fun l => rfl
  simp only [formatMessage, e0, e1, e2, e3, e4, e5, e6, e7, e8, e9, e10, e11, e12,
    e13, e14, e15, e16, e17, e18, e19, e20, e21, e22, e23, e24, e25, e26, e27, er]

theorem c3_plain_text_wrapped_witness :
    str "Hello" ≠ ([] : LC) ∧
      formatMessage (str "Hello") = str "<p>" ++ str "Hello" ++ str "</p>" :=
  ⟨by decide, c3_plain_text_wrapped (str "Hello") (by decide) (by decide)⟩

theorem isPrefixOf_cons3_ne (p1 p2 p3 c1 c2 c3 : Char) (ps l : LC) (h : p3 ≠ c3) :
    (p1 :: p2 :: p3 :: ps).isPrefixOf (c1 :: c2 :: c3 :: l) = false := by
  simp [List.isPrefixOf_cons₂, beq_eq_false_iff_ne.2 h]

theorem hCloseBrM_none (l : LC)
    (h1 : (str "</h1><br>").isPrefixOf l = false)
    (h2 : (str "</h2><br>").isPrefixOf l = false)
    (h3 : (str "</h3><br>").isPrefixOf l = false) : hCloseBrM l = none := by
  simp [hCloseBrM, h1, h2, h3]

/-- Separators never survive into the pieces of `splitOnChar`. -/
theorem splitOnChar_sep_not_mem (sep : Char) :
    ∀ (s : LC), ∀ ℓ ∈ splitOnChar sep s, sep ∉ ℓ := by
  intro s
  induction s with
  | nil =>
    intro ℓ hℓ
    simp [splitOnChar] at hℓ
    rw [hℓ]
    simp
  | cons a r ih =>
    intro ℓ hℓ
    by_cases ha : a = sep
    · subst ha
      simp only [splitOnChar, if_pos rfl] at hℓ
      rcases List.mem_cons.1 hℓ with rfl | hm
      · simp
      · exact ih ℓ hm
    · simp only [splitOnChar, if_neg ha] at hℓ
      cases hsp : splitOnChar sep r with
      | nil =>
        rw [hsp] at hℓ
        simp at hℓ
        rw [hℓ]
        simp only [List.mem_singleton]
        exact fun he => ha he.symm
      | cons ℓ0 rest =>
        rw [hsp] at hℓ
        rcases List.mem_cons.1 hℓ with rfl | hm
        · intro hmem
          rcases List.mem_cons.1 hmem with he | hm0
          · exact ha he.symm
          · exact ih ℓ0 (by rw [hsp]; exact List.mem_cons_self _ _) hm0
        · exact ih ℓ (by rw [hsp]; exact List.mem_cons_of_mem _ hm)

theorem nlRun_plain0 (T : LC) (h : ∀ c ∈ T, c ≠ '\n') : nlRun T = 0 := by
  cases T with
  | nil => rfl
  | cons c r => simp [nlRun, h c (List.mem_cons_self c r)]

theorem nlRun_two (T : LC) (h : nlRun T = 0) : nlRun (str "\n\n" ++ T) = 2 := by
  show nlRun ('\n' :: ('\n' :: T)) = 2
  simp [nlRun, h]

theorem collapseM_none_two (T : LC) (h : nlRun T = 0) :
    collapseM (str "\n\n" ++ T) = none := by
  have h2 := nlRun_two T h
  simp [collapseM, h2]

theorem collapseM_none_one (T : LC) (h : nlRun T = 0) :
    collapseM (str "\n" ++ T) = none := by
  have h1 : nlRun (str "\n" ++ T) = 1 := by
    show nlRun ('\n' :: T) = 1
    simp [nlRun, h]
  simp [collapseM, h1]

theorem paraM_fire_two (T : LC) (h : nlRun T = 0) :
    paraM (str "\n\n" ++ T) = some (1, str "</p><p>") := by
  have h2 := nlRun_two T h
  simp [paraM, h2]

/-- The newline-collapse stage is the identity on a two-paragraph plain
text: no suffix carries three consecutive newlines. -/
theorem collapse_idX (A T : LC) (hpA : ∀ c ∈ A, plainChar c)
    (hpT : ∀ c ∈ T, plainChar c) :
    runScan collapseM (A ++ (str "\n\n" ++ T)) = A ++ (str "\n\n" ++ T) := by
  have hT0 : nlRun T = 0 :=
    nlRun_plain0 T fun c hc => plainChar_ne c (hpT c hc) '\n' (by decide)
  apply runScan_eq_of_none
  intro s hs
  rcases suffix_append_cases hs with hs1 | ⟨A', hA', hAne, rfl⟩
  · rcases suffix_append_cases hs1 with hs2 | ⟨N', hN', hNne, rfl⟩
    · cases s with
      | nil => decide
      | cons c r =>
        exact M_none_of_head collapseM '\n' collapseM_fires c r
          (plainChar_ne c (hpT c (hs2.subset (List.mem_cons_self c r))) '\n' (by decide))
    · have hmem : N' ∈ [str "\n\n", str "\n", ([] : LC)] := by
        have ht : (str "\n\n").tails = [str "\n\n", str "\n", ([] : LC)] := by decide
        rw [← ht]
        exact (List.mem_tails _ _).2 hN'
      simp only [List.mem_cons, List.not_mem_nil, or_false] at hmem
      rcases hmem with rfl | rfl | rfl
      · exact collapseM_none_two T hT0
      · exact collapseM_none_one T hT0
      · exact absurd rfl hNne
  · cases A' with
    | nil => exact absurd rfl hAne
    | cons c r =>
      exact M_none_of_head collapseM '\n' collapseM_fires c _
        (plainChar_ne c (hpA c (hA'.subset (List.mem_cons_self c r))) '\n' (by decide))

/-- The paragraph stage rewrites the single blank line of a two-paragraph
plain text into the closing and opening tags, leaving both halves alone. -/
theorem para_comp (A T : LC) (hpA : ∀ c ∈ A, plainChar c)
    (hpT : ∀ c ∈ T, plainChar c) :
    runScan paraM (A ++ (str "\n\n" ++ T)) = A ++ (str "</p><p>" ++ T) := by
  have hT0 : nlRun T = 0 :=
    nlRun_plain0 T fun c hc => plainChar_ne c (hpT c hc) '\n' (by decide)
  have hTnone : ∀ s, s <:+ T → paraM s = none := by
    intro s hs
    cases s with
    | nil => decide
    | cons c r =>
      exact M_none_of_head paraM '\n' paraM_fires c r
        (plainChar_ne c (hpT c (hs.subset (List.mem_cons_self c r))) '\n' (by decide))
  have hu2 : (str "\n\n" ++ T).length = 2 + T.length := by
    rw [List.length_append]
    rfl
  have hlen : (A ++ (str "\n\n" ++ T)).length = A.length + (2 + T.length) := by
    rw [List.length_append, hu2]
  unfold runScan
  rw [hlen,
    scanF_copy_list paraM A (str "\n\n" ++ T) (A.length + (2 + T.length))
      (by rw [hu2]) ?hcopy]
  case hcopy =>
    intro A' hA' hAne
    cases A' with
    | nil => exact absurd rfl hAne
    | cons c r =>
      exact M_none_of_head paraM '\n' paraM_fires c _
        (plainChar_ne c (hpA c (hA'.subset (List.mem_cons_self c r))) '\n' (by decide))
  rw [Nat.add_sub_cancel_left,
    show (2 + T.length) = T.length + 1 + 1 from by omega,
    show (str "\n\n" ++ T) = '\n' :: ('\n' :: T) from rfl,
    scanF_cons_some paraM (T.length + 1) '\n' ('\n' :: T) 1 (str "</p><p>")
      (paraM_fire_two T hT0),
    show ('\n' :: T).drop 1 = T from rfl,
    scanF_eq_of_none paraM (T.length + 1) T hTnone]

/-- A `'<'`-triggered scan is the identity on `A ++ "</p><p>" ++ T` when
`A` and `T` avoid `'<'` and the matcher rejects the two tag-headed
suffixes. -/
theorem runScan_id_shapeY (M : Matcher)
    (hM : ∀ c rest r, M (c :: rest) = some r → c = '<')
    (hnil : M [] = none)
    (A T : LC) (hA : ∀ c ∈ A, c ≠ '<') (hT : ∀ c ∈ T, c ≠ '<')
    (h1 : M (str "</p><p>" ++ T) = none)
    (h2 : M (str "<p>" ++ T) = none) :
    runScan M (A ++ (str "</p><p>" ++ T)) = A ++ (str "</p><p>" ++ T) := by
  apply runScan_eq_of_none
  intro s hs
  rcases suffix_append_cases hs with hs1 | ⟨A', hA', hAne, rfl⟩
  · rcases suffix_append_cases hs1 with hs2 | ⟨P', hP', hPne, rfl⟩
    · cases s with
      | nil => exact hnil
      | cons c r =>
        exact M_none_of_head M '<' hM c r (hT c (hs2.subset (List.mem_cons_self c r)))
    · have hmem : P' ∈ [str "</p><p>", str "/p><p>", str "p><p>", str "><p>",
          str "<p>", str "p>", str ">", ([] : LC)] := by
        have ht : (str "</p><p>").tails = [str "</p><p>", str "/p><p>", str "p><p>",
            str "><p>", str "<p>", str "p>", str ">", ([] : LC)] := by decide
        rw [← ht]
        exact (List.mem_tails _ _).2 hP'
      simp only [List.mem_cons, List.not_mem_nil, or_false] at hmem
      rcases hmem with rfl | rfl | rfl | rfl | rfl | rfl | rfl | rfl
      · exact h1
      · exact M_none_of_head M '<' hM '/' _ (by decide)
      · exact M_none_of_head M '<' hM 'p' _ (by decide)
      · exact M_none_of_head M '<' hM '>' _ (by decide)
      · exact h2
      · exact M_none_of_head M '<' hM 'p' _ (by decide)
      · exact M_none_of_head M '<' hM '>' _ (by decide)
      · exact absurd rfl hPne
  · cases A' with
    | nil => exact absurd rfl hAne
    | cons c r =>
      exact M_none_of_head M '<' hM c _ (hA c (hA'.subset (List.mem_cons_self c r)))

/-- A `'<'`-triggered scan is the identity on the wrapped two-paragraph
string when the matcher rejects the four tag-headed suffixes. -/
theorem runScan_id_shape2 (M : Matcher)
    (hM : ∀ c rest r, M (c :: rest) = some r → c = '<')
    (hnil : M [] = none)
    (A T : LC) (hA : ∀ c ∈ A, c ≠ '<') (hT : ∀ c ∈ T, c ≠ '<')
    (h0 : M (str "<p>" ++ (A ++ (str "</p><p>" ++ (T ++ str "</p>")))) = none)
    (h1 : M (str "</p><p>" ++ (T ++ str "</p>")) = none)
    (h2 : M (str "<p>" ++ (T ++ str "</p>")) = none)
    (h3 : M (str "</p>") = none) :
    runScan M (str "<p>" ++ (A ++ (str "</p><p>" ++ (T ++ str "</p>")))) =
      str "<p>" ++ (A ++ (str "</p><p>" ++ (T ++ str "</p>"))) := by
  apply runScan_eq_of_none
  intro s hs
  rcases suffix_append_cases hs with hs1 | ⟨P', hP', hPne, rfl⟩
  · rcases suffix_append_cases hs1 with hs2 | ⟨A', hA', hAne, rfl⟩
    · rcases suffix_append_cases hs2 with hs3 | ⟨P2', hP2', hP2ne, rfl⟩
      · rcases suffix_append_cases hs3 with hs4 | ⟨T', hT', hTne, rfl⟩
        · have hmem : s ∈ [str "</p>", str "/p>", str "p>", str ">", ([] : LC)] := by
            have ht : (str "</p>").tails =
                [str "</p>", str "/p>", str "p>", str ">", ([] : LC)] := by decide
            rw [← ht]
            exact (List.mem_tails _ _).2 hs4
          simp only [List.mem_cons, List.not_mem_nil, or_false] at hmem
          rcases hmem with rfl | rfl | rfl | rfl | rfl
          · exact h3
          · exact M_none_of_head M '<' hM '/' _ (by decide)
          · exact M_none_of_head M '<' hM 'p' _ (by decide)
          · exact M_none_of_head M '<' hM '>' _ (by decide)
          · exact hnil
        · cases T' with
          | nil => exact absurd rfl hTne
          | cons c r =>
            exact M_none_of_head M '<' hM c _
              (hT c (hT'.subset (List.mem_cons_self c r)))
      · have hmem : P2' ∈ [str "</p><p>", str "/p><p>", str "p><p>", str "><p>",
            str "<p>", str "p>", str ">", ([] : LC)] := by
          have ht : (str "</p><p>").tails = [str "</p><p>", str "/p><p>",
              str "p><p>", str "><p>", str "<p>", str "p>", str ">", ([] : LC)] := by
            decide
          rw [← ht]
          exact (List.mem_tails _ _).2 hP2'
        simp only [List.mem_cons, List.not_mem_nil, or_false] at hmem
        rcases hmem with rfl | rfl | rfl | rfl | rfl | rfl | rfl | rfl
        · exact h1
        · exact M_none_of_head M '<' hM '/' _ (by decide)
        · exact M_none_of_head M '<' hM 'p' _ (by decide)
        · exact M_none_of_head M '<' hM '>' _ (by decide)
        · exact h2
        · exact M_none_of_head M '<' hM 'p' _ (by decide)
        · exact M_none_of_head M '<' hM '>' _ (by decide)
        · exact absurd rfl hP2ne
    · cases A' with
      | nil => exact absurd rfl hAne
      | cons c r =>
        exact M_none_of_head M '<' hM c _ (hA c (hA'.subset (List.mem_cons_self c r)))
  · have hmem : P' ∈ [str "<p>", str "p>", str ">", ([] : LC)] := by
      have ht : (str "<p>").tails = [str "<p>", str "p>", str ">", ([] : LC)] := by
        decide
      rw [← ht]
      exact (List.mem_tails _ _).2 hP'
    simp only [List.mem_cons, List.not_mem_nil, or_false] at hmem
    rcases hmem with rfl | rfl | rfl | rfl
    · exact h0
    · exact M_none_of_head M '<' hM 'p' _ (by decide)
    · exact M_none_of_head M '<' hM '>' _ (by decide)
    · exact absurd rfl hPne

theorem cleanup2_id (a : Char) (s₂ : LC) (hlt : ∀ c ∈ a :: s₂, c ≠ '<') :
    runScan (litM (str "<p><br></p>") []) (str "<p>" ++ (a :: s₂) ++ str "</p>") =
      str "<p>" ++ (a :: s₂) ++ str "</p>" := by
  have hnea : ('<' : Char) ≠ a := Ne.symm (hlt a (List.mem_cons_self a s₂))
  refine runScan_id_shape _ (litM_trig _ _ '<' (by rfl)) (a :: s₂) (str "</p>") hlt ?_
    (none_on_suffixes_of_mem _ _ (by decide))
  refine litM_none_of_not_pref _ _ _ ?_
  show (('<') :: ('p') :: ('>') :: ('<') :: str "br></p>").isPrefixOf
    (('<') :: ('p') :: ('>') :: a :: (s₂ ++ str "</p>")) = false
  exact isPrefixOf_cons4_ne '<' _ a _ hnea

theorem cleanup3_id (a : Char) (s₂ : LC) (hlt : ∀ c ∈ a :: s₂, c ≠ '<') :
    runScan (litM (str "<br><br>") (str "<br>"))
        (str "<p>" ++ (a :: s₂) ++ str "</p>") =
      str "<p>" ++ (a :: s₂) ++ str "</p>" := by
  refine runScan_id_shape _ (litM_trig _ _ '<' (by rfl)) (a :: s₂) (str "</p>") hlt ?_
    (none_on_suffixes_of_mem _ _ (by decide))
  refine litM_none_of_not_pref _ _ _ ?_
  show (('<') :: ('b') :: str "r><br>").isPrefixOf
    (('<') :: ('p') :: (('>') :: a :: (s₂ ++ str "</p>"))) = false
  exact isPrefixOf_cons2_ne '<' 'b' '<' 'p' _ _ (by decide)

theorem cleanup4_id (a : Char) (s₂ : LC) (hlt : ∀ c ∈ a :: s₂, c ≠ '<') :
    runScan (litM (str "<p><br>") (str "<p>"))
        (str "<p>" ++ (a :: s₂) ++ str "</p>") =
      str "<p>" ++ (a :: s₂) ++ str "</p>" := by
  have hnea : ('<' : Char) ≠ a := Ne.symm (hlt a (List.mem_cons_self a s₂))
  refine runScan_id_shape _ (litM_trig _ _ '<' (by rfl)) (a :: s₂) (str "</p>") hlt ?_
    (none_on_suffixes_of_mem _ _ (by decide))
  refine litM_none_of_not_pref _ _ _ ?_
  show (('<') :: ('p') :: ('>') :: ('<') :: str "br>").isPrefixOf
    (('<') :: ('p') :: ('>') :: a :: (s₂ ++ str "</p>")) = false
  exact isPrefixOf_cons4_ne '<' _ a _ hnea

theorem cleanup5_id (a : Char) (s₂ : LC) (hlt : ∀ c ∈ a :: s₂, c ≠ '<') :
    runScan (litM (str "<br></p>") (str "</p>"))
        (str "<p>" ++ (a :: s₂) ++ str "</p>") =
      str "<p>" ++ (a :: s₂) ++ str "</p>" := by
  refine runScan_id_shape _ (litM_trig _ _ '<' (by rfl)) (a :: s₂) (str "</p>") hlt ?_
    (none_on_suffixes_of_mem _ _ (by decide))
  refine litM_none_of_not_pref _ _ _ ?_
  show (('<') :: ('b') :: str "r></p>").isPrefixOf
    (('<') :: ('p') :: (('>') :: a :: (s₂ ++ str "</p>"))) = false
  exact isPrefixOf_cons2_ne '<' 'b' '<' 'p' _ _ (by decide)

theorem groupStage_id (a : Char) (s₂ : LC) (hlt : ∀ c ∈ a :: s₂, c ≠ '<') :
    runScan groupM (str "<p>" ++ (a :: s₂) ++ str "</p>") =
      str "<p>" ++ (a :: s₂) ++ str "</p>" := by
  refine runScan_id_shape groupM groupM_fires (a :: s₂) (str "</p>") hlt ?_
    (none_on_suffixes_of_mem _ _ (by decide))
  refine groupM_none_of_unit_none _ (groupUnit_none_of_not_pref _ ?_)
  show (('<') :: ('l') :: str "i>").isPrefixOf
    (('<') :: ('p') :: (('>') :: a :: (s₂ ++ str "</p>"))) = false
  exact isPrefixOf_cons2_ne '<' 'l' '<' 'p' _ _ (by decide)

/-- The pipeline on a plain two-paragraph text, computed through the
wrapping stage: only the paragraph stage and the wrap act; the cleanup
and grouping scans remain to be applied. -/
theorem formatMessage_to_wrap (a : Char) (A₂ T : LC)
    (hpA : ∀ c ∈ a :: A₂, plainChar c) (hpT : ∀ c ∈ T, plainChar c) :
    formatMessage ((a :: A₂) ++ (str "\n\n" ++ T)) =
      runScan groupM
       (runScan (litM (str "<br></p>") (str "</p>"))
        (runScan (litM (str "<p><br>") (str "<p>"))
         (runScan (litM (str "<br><br>") (str "<br>"))
          (runScan (litM (str "<p><br></p>") [])
           (runScan (litM (str "<p></p>") [])
            (str "<p>" ++ ((a :: A₂) ++ (str "</p><p>" ++ (T ++ str "</p>"))))))))) := by
  have hXplain : ∀ c ∈ (a :: A₂) ++ (str "\n\n" ++ T), plainChar c ∨ c = '\n' := by
    intro c hc
    simp only [List.mem_append] at hc
    rcases hc with h | h | h
    · exact Or.inl (hpA c h)
    · have h' : c ∈ ['\n', '\n'] := h
      simp at h'
      exact Or.inr h'
    · exact Or.inl (hpT c h)
  have hXne : ∀ (d : Char), d.isAlpha = false ∧ d ≠ ' ' → d ≠ '\n' →
      ∀ c ∈ (a :: A₂) ++ (str "\n\n" ++ T), c ≠ d := by
    intro d hd hdn c hc
    rcases hXplain c hc with hpc | rfl
    · exact plainChar_ne c hpc d hd
    · exact fun he => hdn he.symm
  have hbq := hXne '`' (by decide) (by decide)
  have hpi := hXne '|' (by decide) (by decide)
  have hst := hXne '*' (by decide) (by decide)
  have hlb := hXne '[' (by decide) (by decide)
  have hlines : ∀ ℓ ∈ splitOnChar '\n' ((a :: A₂) ++ (str "\n\n" ++ T)),
      ∀ c ∈ ℓ, plainChar c := by
    intro ℓ hℓ c hc
    rcases hXplain c (mem_of_mem_splitOnChar '\n' _ ℓ hℓ c hc) with hpc | rfl
    · exact hpc
    · exact absurd hc (splitOnChar_sep_not_mem '\n' _ ℓ hℓ)
  have e0 : fenceStage ((a :: A₂) ++ (str "\n\n" ++ T)) =
      ((a :: A₂) ++ (str "\n\n" ++ T), ([] : List LC)) := by
    unfold fenceStage
    exact fenceF_no_backtick _ _ _ _ hbq
  have e1 := collapse_idX (a :: A₂) T hpA hpT
  have e2 : runScan tableM ((a :: A₂) ++ (str "\n\n" ++ T)) =
      (a :: A₂) ++ (str "\n\n" ++ T) :=
    runScan_id_of_trigfree tableM '|' tableM_fires (by decide) _ hpi
  have e3 : runScan inlineCodeM ((a :: A₂) ++ (str "\n\n" ++ T)) =
      (a :: A₂) ++ (str "\n\n" ++ T) :=
    runScan_id_of_trigfree inlineCodeM '`' inlineCodeM_fires (by decide) _ hbq
  have e4 : linesMap bqLine ((a :: A₂) ++ (str "\n\n" ++ T)) =
      (a :: A₂) ++ (str "\n\n" ++ T) :=
    linesMap_id _ _ fun ℓ hℓ =>
      bqLine_id ℓ (head?_ne_of_plain ℓ (hlines ℓ hℓ) '>' (by decide))
  have e5 : linesMap h3Line ((a :: A₂) ++ (str "\n\n" ++ T)) =
      (a :: A₂) ++ (str "\n\n" ++ T) :=
    linesMap_id _ _ fun ℓ hℓ =>
      h3Line_id ℓ (head?_ne_of_plain ℓ (hlines ℓ hℓ) '#' (by decide))
  have e6 : linesMap h2Line ((a :: A₂) ++ (str "\n\n" ++ T)) =
      (a :: A₂) ++ (str "\n\n" ++ T) :=
    linesMap_id _ _ fun ℓ hℓ =>
      h2Line_id ℓ (head?_ne_of_plain ℓ (hlines ℓ hℓ) '#' (by decide))
  have e7 : linesMap h1Line ((a :: A₂) ++ (str "\n\n" ++ T)) =
      (a :: A₂) ++ (str "\n\n" ++ T) :=
    linesMap_id _ _ fun ℓ hℓ =>
      h1Line_id ℓ (head?_ne_of_plain ℓ (hlines ℓ hℓ) '#' (by decide))
  have e8 : runScan boldM ((a :: A₂) ++ (str "\n\n" ++ T)) =
      (a :: A₂) ++ (str "\n\n" ++ T) :=
    runScan_id_of_trigfree boldM '*' boldM_fires (by decide) _ hst
  have e9 : runScan italM ((a :: A₂) ++ (str "\n\n" ++ T)) =
      (a :: A₂) ++ (str "\n\n" ++ T) :=
    runScan_id_of_trigfree italM '*' italM_fires (by decide) _ hst
  have e10 : linesMap hrLine ((a :: A₂) ++ (str "\n\n" ++ T)) =
      (a :: A₂) ++ (str "\n\n" ++ T) := by
    refine linesMap_id _ _ fun ℓ hℓ => hrLine_id ℓ ?_
    intro heq
    have h1 : ('-' : Char) ∈ ℓ := by rw [heq]; decide
    exact plainChar_ne '-' (hlines ℓ hℓ '-' h1) '-' (by decide) rfl
  have e11 : linesMap liLine ((a :: A₂) ++ (str "\n\n" ++ T)) =
      (a :: A₂) ++ (str "\n\n" ++ T) :=
    linesMap_id _ _ fun ℓ hℓ =>
      liLine_id ℓ (head?_ne_of_plain ℓ (hlines ℓ hℓ) '-' (by decide))
  have e12 : linesMap olLine ((a :: A₂) ++ (str "\n\n" ++ T)) =
      (a :: A₂) ++ (str "\n\n" ++ T) := by
    refine linesMap_id _ _ fun ℓ hℓ => olLine_id ℓ fun c hc => ?_
    cases ℓ with
    | nil => cases hc
    | cons b t =>
      injection hc with h1
      subst h1
      exact plainChar_not_digit b (hlines _ hℓ b (List.mem_cons_self b t))
  have e13 : runScan linkM ((a :: A₂) ++ (str "\n\n" ++ T)) =
      (a :: A₂) ++ (str "\n\n" ++ T) :=
    runScan_id_of_trigfree linkM '[' linkM_fires (by decide) _ hlb
  have e14 := para_comp (a :: A₂) T hpA hpT
  have hAlt : ∀ c ∈ a :: A₂, c ≠ '<' :=
    fun c hc => plainChar_ne c (hpA c hc) '<' (by decide)
  have hTlt : ∀ c ∈ T, c ≠ '<' :=
    fun c hc => plainChar_ne c (hpT c hc) '<' (by decide)
  have e15 : runScan hCloseBrM ((a :: A₂) ++ (str "</p><p>" ++ T)) =
      (a :: A₂) ++ (str "</p><p>" ++ T) := by
    refine runScan_id_shapeY hCloseBrM hCloseBrM_fires (by decide) _ T hAlt hTlt ?_ ?_
    · refine hCloseBrM_none _ ?_ ?_ ?_ <;>
      · show (('<') :: ('/') :: ('h') :: _).isPrefixOf
          (('<') :: ('/') :: ('p') :: (str "><p>" ++ T)) = false
        exact isPrefixOf_cons3_ne '<' '/' 'h' '<' '/' 'p' _ _ (by decide)
    · refine hCloseBrM_none _ ?_ ?_ ?_ <;>
      · show (('<') :: ('/') :: _).isPrefixOf
          (('<') :: ('p') :: (str ">" ++ T)) = false
        exact isPrefixOf_cons2_ne '<' '/' '<' 'p' _ _ (by decide)
  have e16 : runScan (litM (str "<hr /><br>") (str "<hr />"))
      ((a :: A₂) ++ (str "</p><p>" ++ T)) = (a :: A₂) ++ (str "</p><p>" ++ T) := by
    refine runScan_id_shapeY _ (litM_trig _ _ '<' (by rfl)) (by decide) _ T hAlt hTlt ?_ ?_
    · refine litM_none_of_not_pref _ _ _ ?_
      show (('<') :: ('h') :: str "r /><br>").isPrefixOf
        (('<') :: ('/') :: (str "p><p>" ++ T)) = false
      exact isPrefixOf_cons2_ne '<' 'h' '<' '/' _ _ (by decide)
    · refine litM_none_of_not_pref _ _ _ ?_
      show (('<') :: ('h') :: str "r /><br>").isPrefixOf
        (('<') :: ('p') :: (str ">" ++ T)) = false
      exact isPrefixOf_cons2_ne '<' 'h' '<' 'p' _ _ (by decide)
  have e17 : runScan (litM (str "</table><br>") (str "</table>"))
      ((a :: A₂) ++ (str "</p><p>" ++ T)) = (a :: A₂) ++ (str "</p><p>" ++ T) := by
    refine runScan_id_shapeY _ (litM_trig _ _ '<' (by rfl)) (by decide) _ T hAlt hTlt ?_ ?_
    · refine litM_none_of_not_pref _ _ _ ?_
      show (('<') :: ('/') :: ('t') :: str "able><br>").isPrefixOf
        (('<') :: ('/') :: ('p') :: (str "><p>" ++ T)) = false
      exact isPrefixOf_cons3_ne '<' '/' 't' '<' '/' 'p' _ _ (by decide)
    · refine litM_none_of_not_pref _ _ _ ?_
      show (('<') :: ('/') :: str "table><br>").isPrefixOf
        (('<') :: ('p') :: (str ">" ++ T)) = false
      exact isPrefixOf_cons2_ne '<' '/' '<' 'p' _ _ (by decide)
  have e18 : runScan (litM (str "</ul><br>") (str "</ul>"))
      ((a :: A₂) ++ (str "</p><p>" ++ T)) = (a :: A₂) ++ (str "</p><p>" ++ T) := by
    refine runScan_id_shapeY _ (litM_trig _ _ '<' (by rfl)) (by decide) _ T hAlt hTlt ?_ ?_
    · refine litM_none_of_not_pref _ _ _ ?_
      show (('<') :: ('/') :: ('u') :: str "l><br>").isPrefixOf
        (('<') :: ('/') :: ('p') :: (str "><p>" ++ T)) = false
      exact isPrefixOf_cons3_ne '<' '/' 'u' '<' '/' 'p' _ _ (by decide)
    · refine litM_none_of_not_pref _ _ _ ?_
      show (('<') :: ('/') :: str "ul><br>").isPrefixOf
        (('<') :: ('p') :: (str ">" ++ T)) = false
      exact isPrefixOf_cons2_ne '<' '/' '<' 'p' _ _ (by decide)
  have e19 : runScan (litM (str "</blockquote><br>") (str "</blockquote>"))
      ((a :: A₂) ++ (str "</p><p>" ++ T)) = (a :: A₂) ++ (str "</p><p>" ++ T) := by
    refine runScan_id_shapeY _ (litM_trig _ _ '<' (by rfl)) (by decide) _ T hAlt hTlt ?_ ?_
    · refine litM_none_of_not_pref _ _ _ ?_
      show (('<') :: ('/') :: ('b') :: str "lockquote><br>").isPrefixOf
        (('<') :: ('/') :: ('p') :: (str "><p>" ++ T)) = false
      exact isPrefixOf_cons3_ne '<' '/' 'b' '<' '/' 'p' _ _ (by decide)
    · refine litM_none_of_not_pref _ _ _ ?_
      show (('<') :: ('/') :: str "blockquote><br>").isPrefixOf
        (('<') :: ('p') :: (str ">" ++ T)) = false
      exact isPrefixOf_cons2_ne '<' '/' '<' 'p' _ _ (by decide)
  have hYnl : ∀ c ∈ (a :: A₂) ++ (str "</p><p>" ++ T), c ≠ '\n' := by
    intro c hc
    simp only [List.mem_append] at hc
    rcases hc with h | h | h
    · exact plainChar_ne c (hpA c h) '\n' (by decide)
    · revert h
      have : ∀ c ∈ str "</p><p>", c ≠ '\n' := by decide
      exact this c
    · exact plainChar_ne c (hpT c h) '\n' (by decide)
  have e20 : runScan (litM (str "\n") (str "<br>"))
      ((a :: A₂) ++ (str "</p><p>" ++ T)) = (a :: A₂) ++ (str "</p><p>" ++ T) :=
    runScan_id_of_trigfree _ '\n' (litM_trig _ _ '\n' (by rfl)) (by decide) _ hYnl
  have e21 : wrapP ((a :: A₂) ++ (str "</p><p>" ++ T)) =
      str "<p>" ++ ((a :: A₂) ++ (str "</p><p>" ++ (T ++ str "</p>"))) := by
    have hh : (((a :: A₂) ++ (str "</p><p>" ++ T))).head? = some a := rfl
    have hne : (((a :: A₂) ++ (str "</p><p>" ++ T))).head? ≠ some '<' := by
      rw [hh]
      intro hcon
      injection hcon with hc
      exact plainChar_ne a (hpA a (List.mem_cons_self a A₂)) '<' (by decide) hc
    have f1 : (str "<h").isPrefixOf ((a :: A₂) ++ (str "</p><p>" ++ T)) = false :=
      isPrefixOf_false_of_head '<' _ _ hne
    have f2 : (str "<table").isPrefixOf ((a :: A₂) ++ (str "</p><p>" ++ T)) = false :=
      isPrefixOf_false_of_head '<' _ _ hne
    have f3 : (str "<ul").isPrefixOf ((a :: A₂) ++ (str "</p><p>" ++ T)) = false :=
      isPrefixOf_false_of_head '<' _ _ hne
    have f4 : (str "<div").isPrefixOf ((a :: A₂) ++ (str "</p><p>" ++ T)) = false :=
      isPrefixOf_false_of_head '<' _ _ hne
    unfold wrapP
    rw [f1, f2, f3, f4]
    simp [List.append_assoc]
  have er : ∀ l : LC, restoreBlocks [] l = l := fun l => rfl
  simp only [formatMessage, e0, e1, e2, e3, e4, e5, e6, e7, e8, e9, e10, e11, e12,
    e13, e14, e15, e16, e17, e18, e19, e20, e21, er]

/-- With a non-empty second paragraph the cleanup and grouping scans all
leave the wrapped two-paragraph string untouched. -/
theorem formatMessage_split_cons (a t : Char) (A₂ T₂ : LC)
    (hpA : ∀ c ∈ a :: A₂, plainChar c) (hpT : ∀ c ∈ t :: T₂, plainChar c) :
    formatMessage ((a :: A₂) ++ (str "\n\n" ++ (t :: T₂))) =
      str "<p>" ++ ((a :: A₂) ++ (str "</p><p>" ++ ((t :: T₂) ++ str "</p>"))) := by
  have hAlt : ∀ c ∈ a :: A₂, c ≠ '<' :=
    fun c hc => plainChar_ne c (hpA c hc) '<' (by decide)
  have hTlt : ∀ c ∈ t :: T₂, c ≠ '<' :=
    fun c hc => plainChar_ne c (hpT c hc) '<' (by decide)
  have hnea : ('<' : Char) ≠ a :=
    Ne.symm (plainChar_ne a (hpA a (List.mem_cons_self a A₂)) '<' (by decide))
  have hnet : ('<' : Char) ≠ t :=
    Ne.symm (plainChar_ne t (hpT t (List.mem_cons_self t T₂)) '<' (by decide))
  rw [formatMessage_to_wrap a A₂ (t :: T₂) hpA hpT]
  have i1 : runScan (litM (str "<p></p>") [])
      (str "<p>" ++ ((a :: A₂) ++ (str "</p><p>" ++ ((t :: T₂) ++ str "</p>")))) =
      str "<p>" ++ ((a :: A₂) ++ (str "</p><p>" ++ ((t :: T₂) ++ str "</p>"))) := by
    refine runScan_id_shape2 _ (litM_trig _ _ '<' (by rfl)) (by decide)
      (a :: A₂) (t :: T₂) hAlt hTlt ?_ ?_ ?_ (by decide)
    · refine litM_none_of_not_pref _ _ _ ?_
      show (('<') :: ('p') :: ('>') :: ('<') :: str "/p>").isPrefixOf
        (('<') :: ('p') :: ('>') :: a ::
          (A₂ ++ (str "</p><p>" ++ ((t :: T₂) ++ str "</p>")))) = false
      exact isPrefixOf_cons4_ne '<' _ a _ hnea
    · refine litM_none_of_not_pref _ _ _ ?_
      show (('<') :: ('p') :: str "></p>").isPrefixOf
        (('<') :: ('/') :: (str "p><p>" ++ ((t :: T₂) ++ str "</p>"))) = false
      exact isPrefixOf_cons2_ne '<' 'p' '<' '/' _ _ (by decide)
    · refine litM_none_of_not_pref _ _ _ ?_
      show (('<') :: ('p') :: ('>') :: ('<') :: str "/p>").isPrefixOf
        (('<') :: ('p') :: ('>') :: t :: (T₂ ++ str "</p>")) = false
      exact isPrefixOf_cons4_ne '<' _ t _ hnet
  have i2 : runScan (litM (str "<p><br></p>") [])
      (str "<p>" ++ ((a :: A₂) ++ (str "</p><p>" ++ ((t :: T₂) ++ str "</p>")))) =
      str "<p>" ++ ((a :: A₂) ++ (str "</p><p>" ++ ((t :: T₂) ++ str "</p>"))) := by
    refine runScan_id_shape2 _ (litM_trig _ _ '<' (by rfl)) (by decide)
      (a :: A₂) (t :: T₂) hAlt hTlt ?_ ?_ ?_ (by decide)
    · refine litM_none_of_not_pref _ _ _ ?_
      show (('<') :: ('p') :: ('>') :: ('<') :: str "br></p>").isPrefixOf
        (('<') :: ('p') :: ('>') :: a ::
          (A₂ ++ (str "</p><p>" ++ ((t :: T₂) ++ str "</p>")))) = false
      exact isPrefixOf_cons4_ne '<' _ a _ hnea
    · refine litM_none_of_not_pref _ _ _ ?_
      show (('<') :: ('p') :: str "><br></p>").isPrefixOf
        (('<') :: ('/') :: (str "p><p>" ++ ((t :: T₂) ++ str "</p>"))) = false
      exact isPrefixOf_cons2_ne '<' 'p' '<' '/' _ _ (by decide)
    · refine litM_none_of_not_pref _ _ _ ?_
      show (('<') :: ('p') :: ('>') :: ('<') :: str "br></p>").isPrefixOf
        (('<') :: ('p') :: ('>') :: t :: (T₂ ++ str "</p>")) = false
      exact isPrefixOf_cons4_ne '<' _ t _ hnet
  have i3 : runScan (litM (str "<br><br>") (str "<br>"))
      (str "<p>" ++ ((a :: A₂) ++ (str "</p><p>" ++ ((t :: T₂) ++ str "</p>")))) =
      str "<p>" ++ ((a :: A₂) ++ (str "</p><p>" ++ ((t :: T₂) ++ str "</p>"))) := by
    refine runScan_id_shape2 _ (litM_trig _ _ '<' (by rfl)) (by decide)
      (a :: A₂) (t :: T₂) hAlt hTlt ?_ ?_ ?_ (by decide)
    · refine litM_none_of_not_pref _ _ _ ?_
      show (('<') :: ('b') :: str "r><br>").isPrefixOf
        (('<') :: ('p') :: (('>') :: a ::
          (A₂ ++ (str "</p><p>" ++ ((t :: T₂) ++ str "</p>"))))) = false
      exact isPrefixOf_cons2_ne '<' 'b' '<' 'p' _ _ (by decide)
    · refine litM_none_of_not_pref _ _ _ ?_
      show (('<') :: ('b') :: str "r><br>").isPrefixOf
        (('<') :: ('/') :: (str "p><p>" ++ ((t :: T₂) ++ str "</p>"))) = false
      exact isPrefixOf_cons2_ne '<' 'b' '<' '/' _ _ (by decide)
    · refine litM_none_of_not_pref _ _ _ ?_
      show (('<') :: ('b') :: str "r><br>").isPrefixOf
        (('<') :: ('p') :: (('>') :: t :: (T₂ ++ str "</p>"))) = false
      exact isPrefixOf_cons2_ne '<' 'b' '<' 'p' _ _ (by decide)
  have i4 : runScan (litM (str "<p><br>") (str "<p>"))
      (str "<p>" ++ ((a :: A₂) ++ (str "</p><p>" ++ ((t :: T₂) ++ str "</p>")))) =
      str "<p>" ++ ((a :: A₂) ++ (str "</p><p>" ++ ((t :: T₂) ++ str "</p>"))) := by
    refine runScan_id_shape2 _ (litM_trig _ _ '<' (by rfl)) (by decide)
      (a :: A₂) (t :: T₂) hAlt hTlt ?_ ?_ ?_ (by decide)
    · refine litM_none_of_not_pref _ _ _ ?_
      show (('<') :: ('p') :: ('>') :: ('<') :: str "br>").isPrefixOf
        (('<') :: ('p') :: ('>') :: a ::
          (A₂ ++ (str "</p><p>" ++ ((t :: T₂) ++ str "</p>")))) = false
      exact isPrefixOf_cons4_ne '<' _ a _ hnea
    · refine litM_none_of_not_pref _ _ _ ?_
      show (('<') :: ('p') :: str "><br>").isPrefixOf
        (('<') :: ('/') :: (str "p><p>" ++ ((t :: T₂) ++ str "</p>"))) = false
      exact isPrefixOf_cons2_ne '<' 'p' '<' '/' _ _ (by decide)
    · refine litM_none_of_not_pref _ _ _ ?_
      show (('<') :: ('p') :: ('>') :: ('<') :: str "br>").isPrefixOf
        (('<') :: ('p') :: ('>') :: t :: (T₂ ++ str "</p>")) = false
      exact isPrefixOf_cons4_ne '<' _ t _ hnet
  have i5 : runScan (litM (str "<br></p>") (str "</p>"))
      (str "<p>" ++ ((a :: A₂) ++ (str "</p><p>" ++ ((t :: T₂) ++ str "</p>")))) =
      str "<p>" ++ ((a :: A₂) ++ (str "</p><p>" ++ ((t :: T₂) ++ str "</p>"))) := by
    refine runScan_id_shape2 _ (litM_trig _ _ '<' (by rfl)) (by decide)
      (a :: A₂) (t :: T₂) hAlt hTlt ?_ ?_ ?_ (by decide)
    · refine litM_none_of_not_pref _ _ _ ?_
      show (('<') :: ('b') :: str "r></p>").isPrefixOf
        (('<') :: ('p') :: (('>') :: a ::
          (A₂ ++ (str "</p><p>" ++ ((t :: T₂) ++ str "</p>"))))) = false
      exact isPrefixOf_cons2_ne '<' 'b' '<' 'p' _ _ (by decide)
    · refine litM_none_of_not_pref _ _ _ ?_
      show (('<') :: ('b') :: str "r></p>").isPrefixOf
        (('<') :: ('/') :: (str "p><p>" ++ ((t :: T₂) ++ str "</p>"))) = false
      exact isPrefixOf_cons2_ne '<' 'b' '<' '/' _ _ (by decide)
    · refine litM_none_of_not_pref _ _ _ ?_
      show (('<') :: ('b') :: str "r></p>").isPrefixOf
        (('<') :: ('p') :: (('>') :: t :: (T₂ ++ str "</p>"))) = false
      exact isPrefixOf_cons2_ne '<' 'b' '<' 'p' _ _ (by decide)
  have i6 : runScan groupM
      (str "<p>" ++ ((a :: A₂) ++ (str "</p><p>" ++ ((t :: T₂) ++ str "</p>")))) =
      str "<p>" ++ ((a :: A₂) ++ (str "</p><p>" ++ ((t :: T₂) ++ str "</p>"))) := by
    refine runScan_id_shape2 groupM groupM_fires (by decide)
      (a :: A₂) (t :: T₂) hAlt hTlt ?_ ?_ ?_ (by decide)
    · refine groupM_none_of_unit_none _ (groupUnit_none_of_not_pref _ ?_)
      show (('<') :: ('l') :: str "i>").isPrefixOf
        (('<') :: ('p') :: (('>') :: a ::
          (A₂ ++ (str "</p><p>" ++ ((t :: T₂) ++ str "</p>"))))) = false
      exact isPrefixOf_cons2_ne '<' 'l' '<' 'p' _ _ (by decide)
    · refine groupM_none_of_unit_none _ (groupUnit_none_of_not_pref _ ?_)
      show (('<') :: ('l') :: str "i>").isPrefixOf
        (('<') :: ('/') :: (str "p><p>" ++ ((t :: T₂) ++ str "</p>"))) = false
      exact isPrefixOf_cons2_ne '<' 'l' '<' '/' _ _ (by decide)
    · refine groupM_none_of_unit_none _ (groupUnit_none_of_not_pref _ ?_)
      show (('<') :: ('l') :: str "i>").isPrefixOf
        (('<') :: ('p') :: (('>') :: t :: (T₂ ++ str "</p>"))) = false
      exact isPrefixOf_cons2_ne '<' 'l' '<' 'p' _ _ (by decide)
  rw [i1, i2, i3, i4, i5, i6]

/-- With an empty second paragraph the first cleanup deletes the trailing
empty `<p></p>` and the remaining scans leave the single paragraph. -/
theorem formatMessage_split_nil (a : Char) (A₂ : LC)
    (hpA : ∀ c ∈ a :: A₂, plainChar c) :
    formatMessage ((a :: A₂) ++ str "\n\n") =
      str "<p>" ++ (a :: A₂) ++ str "</p>" := by
  have h := formatMessage_to_wrap a A₂ [] hpA (by simp)
  simp only [List.append_nil, List.nil_append] at h
  rw [h]
  have hAlt : ∀ c ∈ a :: A₂, c ≠ '<' :=
    fun c hc => plainChar_ne c (hpA c hc) '<' (by decide)
  have hnea : ('<' : Char) ≠ a :=
    Ne.symm (plainChar_ne a (hpA a (List.mem_cons_self a A₂)) '<' (by decide))
  have hM : ∀ c rest r, litM (str "<p></p>") [] (c :: rest) = some r → c = '<' :=
    litM_trig _ _ '<' (by rfl)
  have hc1 : runScan (litM (str "<p></p>") [])
      (str "<p>" ++ ((a :: A₂) ++ (str "</p><p>" ++ str "</p>"))) =
      str "<p>" ++ (a :: A₂) ++ str "</p>" := by
    have hV : str "<p>" ++ ((a :: A₂) ++ (str "</p><p>" ++ str "</p>")) =
        (str "<p>" ++ ((a :: A₂) ++ str "</p>")) ++ str "<p></p>" := by
      simp only [List.append_assoc]
      rfl
    have hcopy : ∀ C', C' <:+ str "<p>" ++ ((a :: A₂) ++ str "</p>") → C' ≠ [] →
        litM (str "<p></p>") [] (C' ++ str "<p></p>") = none := by
      intro C' hC' hne
      have hC'' : C' <:+ str "<p>" ++ (a :: A₂) ++ str "</p>" := by
        rw [List.append_assoc]
        exact hC'
      rcases suffix_cases3 hC'' with ⟨P', hP', hPne, rfl⟩ | ⟨A', hA', hAne, rfl⟩ | h3
      · have hmem : P' ∈ [str "<p>", str "p>", str ">", ([] : LC)] := by
          have ht : (str "<p>").tails = [str "<p>", str "p>", str ">", ([] : LC)] := by
            decide
          rw [← ht]
          exact (List.mem_tails _ _).2 hP'
        simp only [List.mem_cons, List.not_mem_nil, or_false] at hmem
        rcases hmem with rfl | rfl | rfl | rfl
        · refine litM_none_of_not_pref _ _ _ ?_
          show (('<') :: ('p') :: ('>') :: ('<') :: str "/p>").isPrefixOf
            (('<') :: ('p') :: ('>') :: a ::
              ((A₂ ++ str "</p>") ++ str "<p></p>")) = false
          exact isPrefixOf_cons4_ne '<' _ a _ hnea
        · exact M_none_of_head _ '<' hM 'p' _ (by decide)
        · exact M_none_of_head _ '<' hM '>' _ (by decide)
        · exact absurd rfl hPne
      · cases A' with
        | nil => exact absurd rfl hAne
        | cons c r =>
          exact M_none_of_head _ '<' hM c _ (hAlt c (hA'.subset (List.mem_cons_self c r)))
      · have hmem : C' ∈ [str "</p>", str "/p>", str "p>", str ">", ([] : LC)] := by
          have ht : (str "</p>").tails =
              [str "</p>", str "/p>", str "p>", str ">", ([] : LC)] := by decide
          rw [← ht]
          exact (List.mem_tails _ _).2 h3
        simp only [List.mem_cons, List.not_mem_nil, or_false] at hmem
        rcases hmem with rfl | rfl | rfl | rfl | rfl
        · decide
        · decide
        · decide
        · decide
        · exact absurd rfl hne
    unfold runScan
    rw [hV,
      scanF_copy_list (litM (str "<p></p>") []) (str "<p>" ++ ((a :: A₂) ++ str "</p>"))
        (str "<p></p>") _ (le_of_eq (List.length_append _ _).symm) hcopy,
      show ((str "<p>" ++ ((a :: A₂) ++ str "</p>")) ++ str "<p></p>").length -
          (str "<p>" ++ ((a :: A₂) ++ str "</p>")).length = 7 from by
        rw [List.length_append, Nat.add_sub_cancel_left]
        rfl,
      show scanF (litM (str "<p></p>") []) 7 (str "<p></p>") = [] from by decide]
    simp [List.append_assoc]
  rw [hc1, cleanup2_id a A₂ hAlt, cleanup3_id a A₂ hAlt, cleanup4_id a A₂ hAlt,
    cleanup5_id a A₂ hAlt, groupStage_id a A₂ hAlt]

/-- C9 (amended): for a prefix ending at a paragraph boundary, with the
first paragraph non-empty plain text and the extension plain text, the
rendering of the prefix is the single paragraph block and that block is
still present verbatim in the rendering of the extended input. -/
theorem c9_plain_prefix_stable (A T : LC) (hA : A ≠ [])
    (hpA : ∀ c ∈ A, plainChar c) (hpT : ∀ c ∈ T, plainChar c) :
    formatMessage (A ++ str "\n\n") = str "<p>" ++ A ++ str "</p>" ∧
      (str "<p>" ++ A ++ str "</p>") <:+: formatMessage (A ++ str "\n\n" ++ T) := by
  obtain ⟨a, A₂, rfl⟩ : ∃ a A₂, A = a :: A₂ := by
    cases A with
    | nil => exact absurd rfl hA
    | cons a A₂ => exact ⟨a, A₂, rfl⟩
  refine ⟨formatMessage_split_nil a A₂ hpA, ?_⟩
  cases T with
  | nil =>
    rw [List.append_nil, formatMessage_split_nil a A₂ hpA]
  | cons t T₂ =>
    rw [show (a :: A₂) ++ str "\n\n" ++ (t :: T₂) =
          (a :: A₂) ++ (str "\n\n" ++ (t :: T₂)) from List.append_assoc _ _ _,
      formatMessage_split_cons a t A₂ T₂ hpA hpT]
    refine ⟨[], str "<p>" ++ ((t :: T₂) ++ str "</p>"), ?_⟩
    simp only [List.nil_append, List.append_assoc]
    rfl

theorem jsSubst_cons_ne (pre pat post : LC) (c : Char) (r : LC) (hc : c ≠ '$') :
    jsSubst pre pat post (c :: r) = c :: jsSubst pre pat post r := by
  conv_lhs => unfold jsSubst
  split
  · rename_i heq
    injection heq
  · rename_i heq
    injection heq with h1 h2
    exact absurd h1 hc
  · rename_i heq
    injection heq with h1 h2
    exact absurd h1 hc
  · rename_i heq
    injection heq with h1 h2
    exact absurd h1 hc
  · rename_i heq
    injection heq with h1 h2
    rw [h1, h2]

/-- `String.replace`'s `$`-substitution leaves a `$`-free replacement
string untouched. -/
theorem jsSubst_id (pre pat post : LC) :
    ∀ l, (∀ c ∈ l, c ≠ '$') → jsSubst pre pat post l = l := by
  intro l
  induction l with
  | nil => intro _; rfl
  | cons c r ih =>
    intro h
    rw [jsSubst_cons_ne pre pat post c r (h c (List.mem_cons_self c r)),
      ih fun d hd => h d (List.mem_cons_of_mem c hd)]

theorem mem_foldr_append {α : Type} (L : List (List α)) (c : α)
    (h : c ∈ L.foldr (· ++ ·) []) : ∃ p ∈ L, c ∈ p := by
  induction L with
  | nil => cases h
  | cons p L ih =>
    rcases List.mem_append.1 h with h1 | h2
    · exact ⟨p, List.mem_cons_self _ _, h1⟩
    · obtain ⟨q, hq, hcq⟩ := ih h2
      exact ⟨q, List.mem_cons_of_mem _ hq, hcq⟩

theorem hexDigit_ne_dollar (m : Nat) (hm : m < 16) : hexDigit m ≠ '$' := by
  interval_cases m <;> decide

theorem utf8Bytes_lt (n : Nat) (hn : n < 1114112) : ∀ b ∈ utf8Bytes n, b < 256 := by
  intro b hb
  unfold utf8Bytes at hb
  split_ifs at hb <;> simp at hb <;> omega

theorem char_toNat_lt (c : Char) : c.toNat < 1114112 := by
  rcases c.valid with h | ⟨h1, h2⟩
  · exact lt_trans h (by norm_num)
  · exact h2

theorem encodeURIComponent_no_dollar (l : LC) :
    ∀ c ∈ encodeURIComponent l, c ≠ '$' := by
  intro c hc
  unfold encodeURIComponent at hc
  obtain ⟨p, hp, hcp⟩ := mem_foldr_append _ _ hc
  obtain ⟨d, hd, rfl⟩ := List.mem_map.1 hp
  unfold pctEncodeChar at hcp
  split at hcp
  · rename_i hu
    have hcd : c = d := by simpa using hcp
    subst hcd
    intro heq
    rw [heq] at hu
    exact absurd hu (by decide)
  · obtain ⟨q, hq, hcq⟩ := mem_foldr_append _ _ hcp
    obtain ⟨b, hb, rfl⟩ := List.mem_map.1 hq
    have hb256 : b < 256 := utf8Bytes_lt d.toNat (char_toNat_lt d) b hb
    simp only [List.mem_cons, List.not_mem_nil, or_false] at hcq
    rcases hcq with rfl | rfl | rfl
    · decide
    · exact hexDigit_ne_dollar (b / 16) (by omega)
    · exact hexDigit_ne_dollar (b % 16) (by omega)

theorem litM_some (pat repl l : LC) (r : Nat × LC) (h : litM pat repl l = some r) :
    r = (pat.length - 1, repl) := by
  simp only [litM] at h
  split at h
  · injection h with h1
    exact h1.symm
  · cases h

/-- Characters of a literal-replacement scan come from the input or the
replacement. -/
theorem mem_scanF_litM (pat repl : LC) :
    ∀ (fuel : Nat) (l : LC) (c : Char),
      c ∈ scanF (litM pat repl) fuel l → c ∈ l ∨ c ∈ repl := by
  intro fuel
  induction fuel with
  | zero => exact fun l c hc => Or.inl hc
  | succ f ih =>
    intro l c hc
    cases l with
    | nil =>
      rw [scanF_nil] at hc
      cases hc
    | cons a r =>
      cases hM : litM pat repl (a :: r) with
      | none =>
        rw [scanF_cons_none _ _ _ _ hM] at hc
        rcases List.mem_cons.1 hc with rfl | h2
        · exact Or.inl (List.mem_cons_self _ _)
        · rcases ih r c h2 with h3 | h3
          · exact Or.inl (List.mem_cons_of_mem _ h3)
          · exact Or.inr h3
      | some p =>
        obtain rfl := litM_some pat repl _ p hM
        rw [scanF_cons_some _ _ _ _ _ _ hM] at hc
        rcases List.mem_append.1 hc with h2 | h2
        · exact Or.inr h2
        · rcases ih _ c h2 with h3 | h3
          · exact Or.inl (List.mem_cons_of_mem _ (List.mem_of_mem_drop h3))
          · exact Or.inr h3

/-- A single-character literal replacement eliminates every occurrence of
its pattern character (the replacement being free of it). -/
theorem mem_scanF_single_ne (p : Char) (repl : LC) (hp : p ∉ repl) :
    ∀ (fuel : Nat) (l : LC), l.length ≤ fuel →
      ∀ c ∈ scanF (litM [p] repl) fuel l, c ≠ p := by
  intro fuel
  induction fuel with
  | zero =>
    intro l hl c hc
    have hnil : l = [] := List.eq_nil_of_length_eq_zero (Nat.le_zero.1 hl)
    subst hnil
    cases hc
  | succ f ih =>
    intro l hl c hc
    cases l with
    | nil =>
      rw [scanF_nil] at hc
      cases hc
    | cons a r =>
      by_cases ha : a = p
      · subst ha
        have hM : litM [a] repl (a :: r) = some (0, repl) := by
          simp [litM, List.isPrefixOf_cons₂]
        rw [scanF_cons_some _ _ _ _ _ _ hM, List.drop_zero] at hc
        rcases List.mem_append.1 hc with h2 | h2
        · exact fun he => hp (he ▸ h2)
        · exact ih r (by simpa using hl) c h2
      · have hM : litM [p] repl (a :: r) = none := by
          refine litM_none_of_not_pref _ _ _ ?_
          refine isPrefixOf_false_of_head p [] (a :: r) ?_
          simp only [List.head?_cons, ne_eq, Option.some.injEq]
          exact ha
        rw [scanF_cons_none _ _ _ _ hM] at hc
        rcases List.mem_cons.1 hc with rfl | h2
        · exact ha
        · exact ih r (by simpa using hl) c h2

theorem escapeHtml_no_angle (C : LC) :
    ∀ c ∈ escapeHtml C, c ≠ '<' ∧ c ≠ '>' := by
  intro c hc
  unfold escapeHtml runScan at hc
  constructor
  · rcases mem_scanF_litM (str ">") (str "&gt;") _ _ c hc with h1 | h1
    · exact mem_scanF_single_ne '<' (str "&lt;") (by decide) _ C (le_refl _) c h1
    · revert h1
      have : ∀ d ∈ str "&gt;", d ≠ '<' := by decide
      exact this c
  · exact mem_scanF_single_ne '>' (str "&gt;") (by decide) _ _ (le_refl _) c hc

theorem escapeHtml_no_dollar (C : LC) (hC : ∀ c ∈ C, c ≠ '$') :
    ∀ c ∈ escapeHtml C, c ≠ '$' := by
  intro c hc
  unfold escapeHtml runScan at hc
  rcases mem_scanF_litM (str ">") (str "&gt;") _ _ c hc with h1 | h1
  · rcases mem_scanF_litM (str "<") (str "&lt;") _ _ c h1 with h2 | h2
    · exact hC c h2
    · revert h2
      have : ∀ d ∈ str "&lt;", d ≠ '$' := by decide
      exact this c
  · revert h1
    have : ∀ d ∈ str "&gt;", d ≠ '$' := by decide
    exact this c

theorem codeBlockHtml_no_dollar (lang C : LC) (hl : ∀ c ∈ lang, c ≠ '$')
    (hC : ∀ c ∈ C, c ≠ '$') : ∀ c ∈ codeBlockHtml lang C, c ≠ '$' := by
  intro c hc
  unfold codeBlockHtml at hc
  simp only [List.mem_append] at hc
  rcases hc with ((((((h | h) | h) | h) | h) | h) | h)
  · revert h
    exact fun h => (by decide : ∀ d ∈ str "<div class=\"code-block-wrapper\">\n                <div class=\"code-header\">\n                    <span class=\"code-lang\">", d ≠ '$') c h
  · split at h
    · revert h
      exact fun h => (by decide : ∀ d ∈ str "code", d ≠ '$') c h
    · exact hl c h
  · revert h
    exact fun h => (by decide : ∀ d ∈ str "</span>\n                    <button class=\"code-copy-btn\" onclick=\"navigator.clipboard.writeText(decodeURIComponent(\x27", d ≠ '$') c h
  · exact encodeURIComponent_no_dollar _ c h
  · revert h
    exact fun h => (by decide : ∀ d ∈ str "\x27));this.textContent=\x27Copied!\x27\">Copy</button>\n                </div>\n                <pre class=\"code-block\"><code>", d ≠ '$') c h
  · exact escapeHtml_no_dollar C hC c h
  · revert h
    exact fun h => (by decide : ∀ d ∈ str "</code></pre>\n            </div>", d ≠ '$') c h

theorem splitOnChar_no_sep (sep : Char) :
    ∀ l : LC, (∀ c ∈ l, c ≠ sep) → splitOnChar sep l = [l] := by
  intro l
  induction l with
  | nil => intro _; rfl
  | cons a r ih =>
    intro h
    have ha : a ≠ sep := h a (List.mem_cons_self a r)
    simp only [splitOnChar, if_neg ha]
    rw [ih fun c hc => h c (List.mem_cons_of_mem a hc)]

theorem linesMap_single (f : LC → LC) (l : LC) (h : ∀ c ∈ l, c ≠ '\n') :
    linesMap f l = f l := by
  unfold linesMap
  rw [splitOnChar_no_sep '\n' l h]
  rfl

theorem head?_ne_of_all (ℓ : LC) (d : Char) (h : ∀ c ∈ ℓ, c ≠ d) :
    ℓ.head? ≠ some d := by
  cases ℓ with
  | nil => simp
  | cons c r =>
    simp only [List.head?_cons, ne_eq, Option.some.injEq]
    exact h c (List.mem_cons_self c r)

/-- A string-pattern `replace` splits at the boundary when the pattern
matches there and matches nowhere inside the prefix. -/
theorem splitFirstSeq_boundary (pat : LC) (hne : pat ≠ []) :
    ∀ (P u : LC), (∀ s, s <:+ P → s ≠ [] → pat.isPrefixOf (s ++ u) = false) →
      pat.isPrefixOf u = true →
      splitFirstSeq pat (P ++ u) = some (P, u.drop pat.length) := by
  intro P
  induction P with
  | nil =>
    intro u h htrue
    cases u with
    | nil =>
      cases pat with
      | nil => exact absurd rfl hne
      | cons p ps => cases htrue
    | cons c r =>
      show splitFirstSeq pat (c :: r) = some ([], (c :: r).drop pat.length)
      simp only [splitFirstSeq, htrue, if_true]
  | cons a P' ih =>
    intro u h htrue
    have hfalse : pat.isPrefixOf (a :: (P' ++ u)) = false := by
      have := h (a :: P') (List.suffix_refl _) (by simp)
      simpa using this
    show splitFirstSeq pat (a :: (P' ++ u)) = some (a :: P', u.drop pat.length)
    simp only [splitFirstSeq, hfalse, Bool.false_eq_true, if_false]
    rw [ih u (fun s hs hsne => h s (hs.trans (List.suffix_cons a P')) hsne) htrue]
    rfl

/-- The lazy body capture of the fence pattern stops at the first closing
fence. -/
theorem scanToTriple_comp (C B : LC) (hC : ∀ c ∈ C, c ≠ '`') :
    scanToTriple (C ++ (str "```" ++ B)) = some (C, B) := by
  induction C with
  | nil =>
    have hp : (str "```").isPrefixOf ('`' :: ('`' :: ('`' :: B))) = true :=
      List.isPrefixOf_iff_prefix.2 ⟨B, rfl⟩
    show scanToTriple ('`' :: ('`' :: ('`' :: B))) = some ([], B)
    simp [scanToTriple, hp]
  | cons c C' ih =>
    have hc : c ≠ '`' := hC c (List.mem_cons_self c C')
    have hpf : (str "```").isPrefixOf (c :: (C' ++ (str "```" ++ B))) = false := by
      refine isPrefixOf_false_of_head '`' _ _ ?_
      simp only [List.head?_cons, ne_eq, Option.some.injEq]
      exact hc
    show scanToTriple (c :: (C' ++ (str "```" ++ B))) = some (c :: C', B)
    simp only [scanToTriple, hpf, Bool.false_eq_true, if_false,
      ih fun d hd => hC d (List.mem_cons_of_mem c hd), Option.map_some']

/-- The fence scan copies a backtick-free prefix unchanged. -/
theorem fenceF_copy : ∀ (A u : LC) (fuel i : Nat) (bs : List LC),
    A.length ≤ fuel → (∀ c ∈ A, c ≠ '`') →
    fenceF fuel (A ++ u) i bs =
      (A ++ (fenceF (fuel - A.length) u i bs).1, (fenceF (fuel - A.length) u i bs).2)
  | [], u, fuel, i, bs, _, _ => by simp
  | a :: A', u, fuel, i, bs, hlen, h => by
    cases fuel with
    | zero => simp at hlen
    | succ f =>
      have hpf : (str "```").isPrefixOf (a :: (A' ++ u)) = false := by
        refine isPrefixOf_false_of_head '`' _ _ ?_
        simp only [List.head?_cons, ne_eq, Option.some.injEq]
        exact h a (List.mem_cons_self a A')
      show fenceF (f + 1) (a :: (A' ++ u)) i bs = _
      simp only [fenceF, hpf, Bool.false_eq_true, if_false]
      rw [fenceF_copy A' u f i bs (by simpa using hlen)
        (fun d hd => h d (List.mem_cons_of_mem a hd))]
      simp [List.length_cons, Nat.succ_sub_succ]

/-- One step of the fence scan on a well-formed python fence: the language
tag is captured greedily, the optional newline consumed, the body taken
lazily up to the closing fence, and the remainder (backtick-free) copied. -/
theorem fenceF_fence (fuel : Nat) (C B : LC) (i : Nat) (bs : List LC)
    (hC : ∀ c ∈ C, c ≠ '`') (hB : ∀ c ∈ B, c ≠ '`') :
    fenceF (fuel + 1) (str "```python\n" ++ (C ++ (str "```" ++ B))) i bs =
      (codeToken i ++ B, bs ++ [codeBlockHtml (str "python") C]) := by
  have h1 : scanToTriple (C ++ (str "```" ++ B)) = some (C, B) := scanToTriple_comp C B hC
  have h2 := fenceF_no_backtick fuel B (i + 1) (bs ++ [codeBlockHtml (str "python") C]) hB
  calc fenceF (fuel + 1) (str "```python\n" ++ (C ++ (str "```" ++ B))) i bs
      = (match scanToTriple (C ++ (str "```" ++ B)) with
         | some (code, rest2) =>
           (codeToken i ++
              (fenceF fuel rest2 (i + 1) (bs ++ [codeBlockHtml (str "python") code])).1,
            (fenceF fuel rest2 (i + 1) (bs ++ [codeBlockHtml (str "python") code])).2)
         | none =>
           ('`' :: (fenceF fuel (str "``python\n" ++ (C ++ (str "```" ++ B))) i bs).1,
            (fenceF fuel (str "``python\n" ++ (C ++ (str "```" ++ B))) i bs).2)) := rfl
    _ = (codeToken i ++ B, bs ++ [codeBlockHtml (str "python") C]) := by
        rw [h1]
        show (codeToken i ++
            (fenceF fuel B (i + 1) (bs ++ [codeBlockHtml (str "python") C])).1,
          (fenceF fuel B (i + 1) (bs ++ [codeBlockHtml (str "python") C])).2) = _
        rw [h2]

theorem cleanup1_id (a : Char) (s₂ : LC) (hlt : ∀ c ∈ a :: s₂, c ≠ '<') :
    runScan (litM (str "<p></p>") []) (str "<p>" ++ (a :: s₂) ++ str "</p>") =
      str "<p>" ++ (a :: s₂) ++ str "</p>" := by
  have hnea : ('<' : Char) ≠ a := Ne.symm (hlt a (List.mem_cons_self a s₂))
  refine runScan_id_shape _ (litM_trig _ _ '<' (by rfl)) (a :: s₂) (str "</p>") hlt ?_
    (none_on_suffixes_of_mem _ _ (by decide))
  refine litM_none_of_not_pref _ _ _ ?_
  show (('<') :: ('p') :: ('>') :: ('<') :: str "/p>").isPrefixOf
    (('<') :: ('p') :: ('>') :: a :: (s₂ ++ str "</p>")) = false
  exact isPrefixOf_cons4_ne '<' _ a _ hnea

/-- **C2** (amended): a fenced `python` block inside plain text renders to
the stored code-block fragment in place: the header span is labeled
`python`, the code element holds exactly the HTML-escaped body (no
markdown stage ever touches it), and the escaped body is free of raw
angle brackets.  The body must avoid `` ` `` (exactly one fence) and `$`
(the restore step's `String.replace` interprets `$`-escapes in the
replacement). -/
theorem c2_fence_roundtrip (A B C : LC) (hpA : ∀ c ∈ A, plainChar c)
    (hpB : ∀ c ∈ B, plainChar c) (hC : ∀ c ∈ C, c ≠ '`') (hCd : ∀ c ∈ C, c ≠ '$') :
    formatMessage (A ++ (str "```python\n" ++ (C ++ (str "```" ++ B)))) =
      (str "<p>" ++ A) ++ codeBlockHtml (str "python") C ++ (B ++ str "</p>") ∧
    (str "<span class=\"code-lang\">python</span>") <:+:
      formatMessage (A ++ (str "```python\n" ++ (C ++ (str "```" ++ B)))) ∧
    (str "<pre class=\"code-block\"><code>" ++ escapeHtml C ++ str "</code></pre>") <:+:
      formatMessage (A ++ (str "```python\n" ++ (C ++ (str "```" ++ B)))) ∧
    (∀ c ∈ escapeHtml C, c ≠ '<' ∧ c ≠ '>') := by
  have hBbq : ∀ c ∈ B, c ≠ '`' := fun c hc => plainChar_ne c (hpB c hc) '`' (by decide)
  have hAbq : ∀ c ∈ A, c ≠ '`' := fun c hc => plainChar_ne c (hpA c hc) '`' (by decide)
  have hu : (str "```python\n" ++ (C ++ (str "```" ++ B))).length =
      10 + (C.length + (3 + B.length)) := by
    simp only [List.length_append]
    rw [show (str "```python\n").length = 10 from rfl, show (str "```").length = 3 from rfl]
  have hXlen : (A ++ (str "```python\n" ++ (C ++ (str "```" ++ B)))).length =
      A.length + (10 + (C.length + (3 + B.length))) := by
    rw [List.length_append, hu]
  have e0 : fenceStage (A ++ (str "```python\n" ++ (C ++ (str "```" ++ B)))) =
      (A ++ (codeToken 0 ++ B), [codeBlockHtml (str "python") C]) := by
    unfold fenceStage
    rw [hXlen, fenceF_copy A _ _ 0 [] (by omega) hAbq, Nat.add_sub_cancel_left,
      show 10 + (C.length + (3 + B.length)) = 9 + (C.length + (3 + B.length)) + 1 from by
        omega,
      fenceF_fence _ C B 0 [] hC hBbq]
    simp
  have hX2mem : ∀ c ∈ A ++ (codeToken 0 ++ B), plainChar c ∨ c ∈ codeToken 0 := by
    intro c hc
    rcases List.mem_append.1 hc with h | h
    · exact Or.inl (hpA c h)
    · rcases List.mem_append.1 h with h2 | h2
      · exact Or.inr h2
      · exact Or.inl (hpB c h2)
  have hX2ne : ∀ (d : Char), d.isAlpha = false ∧ d ≠ ' ' → (∀ e ∈ codeToken 0, e ≠ d) →
      ∀ c ∈ A ++ (codeToken 0 ++ B), c ≠ d := by
    intro d hd htokd c hc
    rcases hX2mem c hc with hp | ht
    · exact plainChar_ne c hp d hd
    · exact htokd c ht
  have hbq2 := hX2ne '`' (by decide) (by decide)
  have hnl2 := hX2ne '\n' (by decide) (by decide)
  have hpi2 := hX2ne '|' (by decide) (by decide)
  have hst2 := hX2ne '*' (by decide) (by decide)
  have hlb2 := hX2ne '[' (by decide) (by decide)
  have hlt2 := hX2ne '<' (by decide) (by decide)
  obtain ⟨h0, Xt, hcons, hh0⟩ :
      ∃ h0 Xt, A ++ (codeToken 0 ++ B) = h0 :: Xt ∧ (plainChar h0 ∨ h0 = '_') := by
    cases A with
    | nil =>
      have htok : codeToken 0 = str "__CODE_BLOCK_0__" := by decide
      refine ⟨'_', str "_CODE_BLOCK_0__" ++ B, ?_, Or.inr rfl⟩
      rw [List.nil_append, htok]
      rfl
    | cons a A₂ =>
      exact ⟨a, A₂ ++ (codeToken 0 ++ B), rfl, Or.inl (hpA a (List.mem_cons_self a A₂))⟩
  have hh0ne : ∀ (d : Char), d.isAlpha = false ∧ d ≠ ' ' → d ≠ '_' → h0 ≠ d := by
    intro d hd hdu
    rcases hh0 with hp | rfl
    · exact plainChar_ne h0 hp d hd
    · exact fun heq => hdu heq.symm
  have hheadX2 : (A ++ (codeToken 0 ++ B)).head? = some h0 := by
    rw [hcons]
    rfl
  have hhead_ne : ∀ (d : Char), h0 ≠ d → (A ++ (codeToken 0 ++ B)).head? ≠ some d := by
    intro d hd
    rw [hheadX2]
    intro hcon
    injection hcon with h1
    exact hd h1
  have e1 : runScan collapseM (A ++ (codeToken 0 ++ B)) = A ++ (codeToken 0 ++ B) :=
    runScan_id_of_trigfree collapseM '\n' collapseM_fires (by decide) _ hnl2
  have e2 : runScan tableM (A ++ (codeToken 0 ++ B)) = A ++ (codeToken 0 ++ B) :=
    runScan_id_of_trigfree tableM '|' tableM_fires (by decide) _ hpi2
  have e3 : runScan inlineCodeM (A ++ (codeToken 0 ++ B)) = A ++ (codeToken 0 ++ B) :=
    runScan_id_of_trigfree inlineCodeM '`' inlineCodeM_fires (by decide) _ hbq2
  have e4 : linesMap bqLine (A ++ (codeToken 0 ++ B)) = A ++ (codeToken 0 ++ B) := by
    rw [linesMap_single bqLine _ hnl2]
    exact bqLine_id _ (hhead_ne '>' (hh0ne '>' (by decide) (by decide)))
  have e5 : linesMap h3Line (A ++ (codeToken 0 ++ B)) = A ++ (codeToken 0 ++ B) := by
    rw [linesMap_single h3Line _ hnl2]
    exact h3Line_id _ (hhead_ne '#' (hh0ne '#' (by decide) (by decide)))
  have e6 : linesMap h2Line (A ++ (codeToken 0 ++ B)) = A ++ (codeToken 0 ++ B) := by
    rw [linesMap_single h2Line _ hnl2]
    exact h2Line_id _ (hhead_ne '#' (hh0ne '#' (by decide) (by decide)))
  have e7 : linesMap h1Line (A ++ (codeToken 0 ++ B)) = A ++ (codeToken 0 ++ B) := by
    rw [linesMap_single h1Line _ hnl2]
    exact h1Line_id _ (hhead_ne '#' (hh0ne '#' (by decide) (by decide)))
  have e8 : runScan boldM (A ++ (codeToken 0 ++ B)) = A ++ (codeToken 0 ++ B) :=
    runScan_id_of_trigfree boldM '*' boldM_fires (by decide) _ hst2
  have e9 : runScan italM (A ++ (codeToken 0 ++ B)) = A ++ (codeToken 0 ++ B) :=
    runScan_id_of_trigfree italM '*' italM_fires (by decide) _ hst2
  have e10 : linesMap hrLine (A ++ (codeToken 0 ++ B)) = A ++ (codeToken 0 ++ B) := by
    rw [linesMap_single hrLine _ hnl2]
    apply hrLine_id
    intro heq
    have hu2 : '_' ∈ A ++ (codeToken 0 ++ B) :=
      List.mem_append.2 (Or.inr (List.mem_append.2 (Or.inl (by decide))))
    rw [heq] at hu2
    exact absurd hu2 (by decide)
  have e11 : linesMap liLine (A ++ (codeToken 0 ++ B)) = A ++ (codeToken 0 ++ B) := by
    rw [linesMap_single liLine _ hnl2]
    exact liLine_id _ (hhead_ne '-' (hh0ne '-' (by decide) (by decide)))
  have e12 : linesMap olLine (A ++ (codeToken 0 ++ B)) = A ++ (codeToken 0 ++ B) := by
    rw [linesMap_single olLine _ hnl2]
    apply olLine_id
    intro c hc
    rw [hheadX2] at hc
    injection hc with h1
    rw [← h1]
    rcases hh0 with hp | rfl
    · exact plainChar_not_digit h0 hp
    · decide
  have e13 : runScan linkM (A ++ (codeToken 0 ++ B)) = A ++ (codeToken 0 ++ B) :=
    runScan_id_of_trigfree linkM '[' linkM_fires (by decide) _ hlb2
  have e14 : runScan paraM (A ++ (codeToken 0 ++ B)) = A ++ (codeToken 0 ++ B) :=
    runScan_id_of_trigfree paraM '\n' paraM_fires (by decide) _ hnl2
  have e15 : runScan hCloseBrM (A ++ (codeToken 0 ++ B)) = A ++ (codeToken 0 ++ B) :=
    runScan_id_of_trigfree hCloseBrM '<' hCloseBrM_fires (by decide) _ hlt2
  have e16 : runScan (litM (str "<hr /><br>") (str "<hr />"))
      (A ++ (codeToken 0 ++ B)) = A ++ (codeToken 0 ++ B) :=
    runScan_id_of_trigfree _ '<' (litM_trig _ _ '<' (by rfl)) (by decide) _ hlt2
  have e17 : runScan (litM (str "</table><br>") (str "</table>"))
      (A ++ (codeToken 0 ++ B)) = A ++ (codeToken 0 ++ B) :=
    runScan_id_of_trigfree _ '<' (litM_trig _ _ '<' (by rfl)) (by decide) _ hlt2
  have e18 : runScan (litM (str "</ul><br>") (str "</ul>"))
      (A ++ (codeToken 0 ++ B)) = A ++ (codeToken 0 ++ B) :=
    runScan_id_of_trigfree _ '<' (litM_trig _ _ '<' (by rfl)) (by decide) _ hlt2
  have e19 : runScan (litM (str "</blockquote><br>") (str "</blockquote>"))
      (A ++ (codeToken 0 ++ B)) = A ++ (codeToken 0 ++ B) :=
    runScan_id_of_trigfree _ '<' (litM_trig _ _ '<' (by rfl)) (by decide) _ hlt2
  have e20 : runScan (litM (str "\n") (str "<br>"))
      (A ++ (codeToken 0 ++ B)) = A ++ (codeToken 0 ++ B) :=
    runScan_id_of_trigfree _ '\n' (litM_trig _ _ '\n' (by rfl)) (by decide) _ hnl2
  have e21 : wrapP (A ++ (codeToken 0 ++ B)) =
      str "<p>" ++ (A ++ (codeToken 0 ++ B)) ++ str "</p>" := by
    have hne : (A ++ (codeToken 0 ++ B)).head? ≠ some '<' :=
      hhead_ne '<' (hh0ne '<' (by decide) (by decide))
    have f1 : (str "<h").isPrefixOf (A ++ (codeToken 0 ++ B)) = false :=
      isPrefixOf_false_of_head '<' _ _ hne
    have f2 : (str "<table").isPrefixOf (A ++ (codeToken 0 ++ B)) = false :=
      isPrefixOf_false_of_head '<' _ _ hne
    have f3 : (str "<ul").isPrefixOf (A ++ (codeToken 0 ++ B)) = false :=
      isPrefixOf_false_of_head '<' _ _ hne
    have f4 : (str "<div").isPrefixOf (A ++ (codeToken 0 ++ B)) = false :=
      isPrefixOf_false_of_head '<' _ _ hne
    unfold wrapP
    rw [f1, f2, f3, f4]
    simp
  have hltc : ∀ c ∈ h0 :: Xt, c ≠ '<' := hcons ▸ hlt2
  have ec1 : runScan (litM (str "<p></p>") [])
      (str "<p>" ++ (A ++ (codeToken 0 ++ B)) ++ str "</p>") =
      str "<p>" ++ (A ++ (codeToken 0 ++ B)) ++ str "</p>" := by
    rw [hcons]
    exact cleanup1_id h0 Xt hltc
  have ec2 : runScan (litM (str "<p><br></p>") [])
      (str "<p>" ++ (A ++ (codeToken 0 ++ B)) ++ str "</p>") =
      str "<p>" ++ (A ++ (codeToken 0 ++ B)) ++ str "</p>" := by
    rw [hcons]
    exact cleanup2_id h0 Xt hltc
  have ec3 : runScan (litM (str "<br><br>") (str "<br>"))
      (str "<p>" ++ (A ++ (codeToken 0 ++ B)) ++ str "</p>") =
      str "<p>" ++ (A ++ (codeToken 0 ++ B)) ++ str "</p>" := by
    rw [hcons]
    exact cleanup3_id h0 Xt hltc
  have ec4 : runScan (litM (str "<p><br>") (str "<p>"))
      (str "<p>" ++ (A ++ (codeToken 0 ++ B)) ++ str "</p>") =
      str "<p>" ++ (A ++ (codeToken 0 ++ B)) ++ str "</p>" := by
    rw [hcons]
    exact cleanup4_id h0 Xt hltc
  have ec5 : runScan (litM (str "<br></p>") (str "</p>"))
      (str "<p>" ++ (A ++ (codeToken 0 ++ B)) ++ str "</p>") =
      str "<p>" ++ (A ++ (codeToken 0 ++ B)) ++ str "</p>" := by
    rw [hcons]
    exact cleanup5_id h0 Xt hltc
  have ec6 : runScan groupM
      (str "<p>" ++ (A ++ (codeToken 0 ++ B)) ++ str "</p>") =
      str "<p>" ++ (A ++ (codeToken 0 ++ B)) ++ str "</p>" := by
    rw [hcons]
    exact groupStage_id h0 Xt hltc
  have hrb : ∀ l, restoreBlocks [codeBlockHtml (str "python") C] l =
      replFirst (codeToken 0) (codeBlockHtml (str "python") C) l := fun l => rfl
  have hmain : formatMessage (A ++ (str "```python\n" ++ (C ++ (str "```" ++ B)))) =
      replFirst (codeToken 0) (codeBlockHtml (str "python") C)
        (str "<p>" ++ (A ++ (codeToken 0 ++ B)) ++ str "</p>") := by
    simp only [formatMessage, e0, e1, e2, e3, e4, e5, e6, e7, e8, e9, e10, e11, e12,
      e13, e14, e15, e16, e17, e18, e19, e20, e21, ec1, ec2, ec3, ec4, ec5, ec6, hrb]
  have htokne : codeToken 0 ≠ [] := by decide
  have htrue : (codeToken 0).isPrefixOf (codeToken 0 ++ (B ++ str "</p>")) = true :=
    List.isPrefixOf_iff_prefix.2 ⟨B ++ str "</p>", rfl⟩
  have hno : ∀ s, s <:+ str "<p>" ++ A → s ≠ [] →
      (codeToken 0).isPrefixOf (s ++ (codeToken 0 ++ (B ++ str "</p>"))) = false := by
    intro s hs hsne
    rcases suffix_append_cases hs with h1 | ⟨P', hP', hPne, rfl⟩
    · cases s with
      | nil => exact absurd rfl hsne
      | cons c r =>
        refine isPrefixOf_false_of_head '_' _ _ ?_
        simp only [List.cons_append, List.head?_cons, ne_eq, Option.some.injEq]
        exact plainChar_ne c (hpA c (h1.subset (List.mem_cons_self c r))) '_' (by decide)
    · have hmem : P' ∈ [str "<p>", str "p>", str ">", ([] : LC)] := by
        have ht : (str "<p>").tails = [str "<p>", str "p>", str ">", ([] : LC)] := by
          decide
        rw [← ht]
        exact (List.mem_tails _ _).2 hP'
      simp only [List.mem_cons, List.not_mem_nil, or_false] at hmem
      rcases hmem with rfl | rfl | rfl | rfl
      · refine isPrefixOf_false_of_head '_' _ _ ?_
        have hh : (((str "<p>") ++ A) ++ (codeToken 0 ++ (B ++ str "</p>"))).head? =
            some '<' := rfl
        rw [hh]
        decide
      · refine isPrefixOf_false_of_head '_' _ _ ?_
        have hh : (((str "p>") ++ A) ++ (codeToken 0 ++ (B ++ str "</p>"))).head? =
            some 'p' := rfl
        rw [hh]
        decide
      · refine isPrefixOf_false_of_head '_' _ _ ?_
        have hh : (((str ">") ++ A) ++ (codeToken 0 ++ (B ++ str "</p>"))).head? =
            some '>' := rfl
        rw [hh]
        decide
      · exact absurd rfl hPne
  have hsplit : splitFirstSeq (codeToken 0)
      (str "<p>" ++ (A ++ (codeToken 0 ++ B)) ++ str "</p>") =
      some (str "<p>" ++ A, B ++ str "</p>") := by
    have hW : str "<p>" ++ (A ++ (codeToken 0 ++ B)) ++ str "</p>" =
        (str "<p>" ++ A) ++ (codeToken 0 ++ (B ++ str "</p>")) := by
      simp [List.append_assoc]
    rw [hW, splitFirstSeq_boundary (codeToken 0) htokne (str "<p>" ++ A) _ hno htrue,
      List.drop_left]
  have hb0d : ∀ c ∈ codeBlockHtml (str "python") C, c ≠ '$' :=
    codeBlockHtml_no_dollar (str "python") C (by decide) hCd
  have hrepl : replFirst (codeToken 0) (codeBlockHtml (str "python") C)
      (str "<p>" ++ (A ++ (codeToken 0 ++ B)) ++ str "</p>") =
      (str "<p>" ++ A) ++ codeBlockHtml (str "python") C ++ (B ++ str "</p>") := by
    unfold replFirst
    rw [hsplit]
    show (str "<p>" ++ A) ++
        jsSubst (str "<p>" ++ A) (codeToken 0) (B ++ str "</p>")
          (codeBlockHtml (str "python") C) ++ (B ++ str "</p>") = _
    rw [jsSubst_id _ _ _ _ hb0d]
  have heq := hmain.trans hrepl
  have hspan : (str "<span class=\"code-lang\">python</span>") <:+:
      codeBlockHtml (str "python") C :=
    ⟨str "<div class=\"code-block-wrapper\">\n                <div class=\"code-header\">\n                    ",
     str "\n                    <button class=\"code-copy-btn\" onclick=\"navigator.clipboard.writeText(decodeURIComponent(\x27" ++
       (encodeURIComponent (jsTrim C) ++
        (str "\x27));this.textContent=\x27Copied!\x27\">Copy</button>\n                </div>\n                <pre class=\"code-block\"><code>" ++
         (escapeHtml C ++ str "</code></pre>\n            </div>"))),
     by simp only [codeBlockHtml, List.append_assoc]; rfl⟩
  have hcode : (str "<pre class=\"code-block\"><code>" ++ escapeHtml C ++
      str "</code></pre>") <:+: codeBlockHtml (str "python") C :=
    ⟨str "<div class=\"code-block-wrapper\">\n                <div class=\"code-header\">\n                    <span class=\"code-lang\">python</span>\n                    <button class=\"code-copy-btn\" onclick=\"navigator.clipboard.writeText(decodeURIComponent(\x27" ++
       (encodeURIComponent (jsTrim C) ++
        str "\x27));this.textContent=\x27Copied!\x27\">Copy</button>\n                </div>\n                "),
     str "\n            </div>",
     by simp only [codeBlockHtml, List.append_assoc]; rfl⟩
  have hblock : codeBlockHtml (str "python") C <:+:
      formatMessage (A ++ (str "```python\n" ++ (C ++ (str "```" ++ B)))) := by
    rw [heq]
    exact ⟨str "<p>" ++ A, B ++ str "</p>", rfl⟩
  exact ⟨heq, hspan.trans hblock, hcode.trans hblock, escapeHtml_no_angle C⟩

theorem c2_fence_roundtrip_witness :
    (∀ c ∈ str "print(1)", c ≠ '$') ∧
      (str "<span class=\"code-lang\">python</span>") <:+:
        formatMessage (str "see " ++
          (str "```python\n" ++ (str "print(1)" ++ (str "```" ++ str " ok")))) :=
  ⟨by decide, (c2_fence_roundtrip (str "see ") (str " ok") (str "print(1)")
    (by decide) (by decide) (by decide) (by decide)).2.1⟩

/-- **C2**, counterexample to the universal half: the restore step is a
JS `String.replace` with a string replacement, which interprets `$&` in
the replacement as the matched pattern; a fence body containing `$&` is
therefore rewritten — the rendered code element holds
`x__CODE_BLOCK_0__y` instead of the literal body `x$&y`. -/
theorem c2_counterexample :
    ¬ ((str "<code>x$&y</code>") <:+: formatMessage (str "```python\nx$&y```")) ∧
      (str "<code>x__CODE_BLOCK_0__y</code>") <:+:
        formatMessage (str "```python\nx$&y```") := by decide

theorem c9_plain_prefix_stable_witness :
    (str "Hi" ≠ ([] : LC)) ∧
      (formatMessage (str "Hi" ++ str "\n\n") = str "<p>" ++ str "Hi" ++ str "</p>" ∧
        (str "<p>" ++ str "Hi" ++ str "</p>") <:+:
          formatMessage (str "Hi" ++ str "\n\n" ++ str "ok")) :=
  ⟨by decide,
    c9_plain_prefix_stable (str "Hi") (str "ok") (by decide) (by decide) (by decide)⟩

end NexusAI
